import Mathlib

set_option autoImplicit false

namespace CssClasses

/-! Shallow embedding of the css-classes language server core.

Strings are processed as `List Char`; JavaScript string primitives
(`indexOf`, `slice`, `trim`, `startsWith`) are mirrored by the helpers
below.  Positions are `Int` (JavaScript numbers restricted to integer
values).  Fallible paths (a JavaScript `throw`) are `Except String`. -/

/-- JavaScript `String.prototype.trim` on a character list. -/
def trimChars (l : List Char) : List Char :=
  ((l.dropWhile Char.isWhitespace).reverse.dropWhile Char.isWhitespace).reverse

/-- JavaScript `String.prototype.indexOf`: position of the first occurrence
of `needle`, `none` when absent (JS returns -1). -/
def idxOf (needle : List Char) : List Char → Option Nat
  | [] => if needle.isPrefixOf ([] : List Char) then some 0 else none
  | c :: t =>
    if needle.isPrefixOf (c :: t) then some 0
    else (idxOf needle t).map (· + 1)

/-- `indexOf` on `String`s. -/
def strIndexOf (s pat : String) : Option Nat := idxOf pat.data s.data

/-- JavaScript `String.prototype.startsWith`. -/
def strStartsWith (s pat : String) : Bool := pat.data.isPrefixOf s.data

/-! ## BEM decomposer (src/utils/bem.ts) -/

structure BemParts where
  block : String
  element : Option String
  modifier : Option String
deriving DecidableEq, Repr

/-- JavaScript `x || null` on a sliced string: the empty string is falsy. -/
def orNull (l : List Char) : Option String :=
  if l = [] then none else some (String.mk l)

/-- `parseBem` from src/utils/bem.ts.  Splits a class name into
block / element / modifier on the configured separators. -/
def parseBem (className elementSep modifierSep : String) : Option BemParts :=
  let c := className.data
  let e := elementSep.data
  let m := modifierSep.data
  if c = [] ∨ e.isPrefixOf c ∨ m.isPrefixOf c then none
  else
    let elemIdx? := idxOf e c
    let modIdx? := idxOf m c
    if elemIdx? = none ∧ modIdx? = none then
      some ⟨className, none, none⟩
    else
      let elemFirst :=
        match elemIdx?, modIdx? with
        | some _, none => true
        | some ei, some mi => decide (ei < mi)
        | none, _ => false
      if elemFirst then
        let ei := elemIdx?.getD 0
        let block := c.take ei
        let rest := c.drop (ei + e.length)
        if block = [] then none
        else
          match idxOf m rest with
          | some rmi =>
            some ⟨String.mk block, orNull (rest.take rmi),
                  orNull (rest.drop (rmi + m.length))⟩
          | none => some ⟨String.mk block, orNull rest, none⟩
      else
        let mi := modIdx?.getD 0
        let block := c.take mi
        if block = [] then none
        else some ⟨String.mk block, none, orNull (c.drop (mi + m.length))⟩

/-- `bemTargetAtOffset` from src/utils/bem.ts: the class name to look up
for a cursor at `offset` within `className`. -/
def bemTargetAtOffset (className : String) (offset : Nat)
    (elementSep modifierSep : String) : String :=
  match parseBem className elementSep modifierSep with
  | none => className
  | some parts =>
    if parts.element = none ∧ parts.modifier = none then className
    else
      let blockEnd := parts.block.length
      let elementEnd :=
        match parts.element with
        | some el => blockEnd + elementSep.length + el.length
        | none => blockEnd
      if offset < blockEnd then parts.block
      else
        match parts.element with
        | some el =>
          if offset < elementEnd then parts.block ++ elementSep ++ el
          else className
        | none => className

/-! ## CSS structural parser (src/parsers/css-parser.ts, `parseCssClasses`) -/

/-- Opening and closing brace characters, named to keep them out of string
and character literals. -/
def lbrace : Char := Char.ofNat 123

def rbrace : Char := Char.ofNat 125

structure CssClassesConfig where
  bemEnabled : Bool
  elementSep : String
  modifierSep : String
  resolveNesting : Bool
deriving Repr

def defaultConfig : CssClassesConfig := ⟨true, "__", "--", true⟩

structure CssClassDefinition where
  className : String
  filePath : String
  line : Int
  column : Int
  endLine : Int
  endColumn : Int
  rawSelector : String
  nested : Bool
  bem : Option BemParts
deriving DecidableEq, Repr

/-- `splitSelectors`: split a selector on top-level commas, respecting
parentheses (depth is a JS number and may go negative). -/
def splitSelectorsAux : List Char → List Char → Int → List (List Char) →
    List (List Char)
  | [], current, _, parts =>
    if trimChars current ≠ [] then parts ++ [current] else parts
  | ch :: rest, current, depth, parts =>
    let depth := if ch = '(' then depth + 1 else depth
    let depth := if ch = ')' then depth - 1 else depth
    if ch = ',' ∧ depth = 0 then
      splitSelectorsAux rest [] depth (parts ++ [current])
    else
      splitSelectorsAux rest (current ++ [ch]) depth parts

def splitSelectors (selector : List Char) : List (List Char) :=
  splitSelectorsAux selector [] 0 []

/-- JavaScript `sel.replace(slash-amp-global, parent)`: every ampersand is
spliced with the parent selector text. -/
def replaceAmp (l : List Char) (repl : List Char) : List Char :=
  (l.map (fun c => if c = '&' then repl else [c])).flatten

/-- `resolveSelectors`: resolve one raw selector against the parent
selector list, handling ampersand substitution and descendant chaining. -/
def resolveSelectors (rawSelector : List Char)
    (parentSelectors : List (List Char)) (resolveNesting : Bool) :
    List (List Char) :=
  (splitSelectors rawSelector).foldl
    (fun resolved part =>
      let t := trimChars part
      if t = [] then resolved
      else if !resolveNesting || parentSelectors.isEmpty then resolved ++ [t]
      else if t.contains '&' then
        resolved ++ parentSelectors.map (fun parent => replaceAmp t parent)
      else
        resolved ++ parentSelectors.map (fun parent => parent ++ ' ' :: t))
    []

/-- JS regex word character. -/
def isWordChar (c : Char) : Bool := c.isAlpha || c.isDigit || c = '_'

/-- Character allowed inside a class identifier. -/
def isIdentChar (c : Char) : Bool := isWordChar c || c = '-'

/-- First character of a class identifier body. -/
def isIdentStart (c : Char) : Bool := c = '_' || c.isAlpha

/-- Match the identifier part of the class-token regex right after a dot. -/
def classTok : List Char → Option (List Char)
  | [] => none
  | c :: rest =>
    if c = '-' then
      match rest with
      | [] => none
      | d :: rest2 =>
        if isIdentStart d then some ('-' :: d :: rest2.takeWhile isIdentChar)
        else none
    else if isIdentStart c then some (c :: rest.takeWhile isIdentChar)
    else none

/-- `extractClassesFromSelector`: scan a resolved selector for class
tokens (a dot followed by an identifier).  The scan consumes at least one
character per step, so fuel equal to the input length always suffices;
fuel keeps the recursion structural. -/
def extractClassesAux : Nat → List Char → List String
  | 0, _ => []
  | _, [] => []
  | fuel + 1, c :: rest =>
    if c = '.' then
      match classTok rest with
      | some tok =>
        String.mk tok :: extractClassesAux fuel (rest.drop tok.length)
      | none => extractClassesAux fuel rest
    else extractClassesAux fuel rest

def extractClassesFromSelector (selector : List Char) : List String :=
  extractClassesAux selector.length selector

/-- The per-rule emission filter of `parseCssClasses`: walk the extracted
class tokens in order, dropping any class already defined by the parent
scope and any duplicate within this rule. -/
def dedupFilterAux (parentClasses : List String) :
    List String → List String → List String
  | _, [] => []
  | seen, c :: rest =>
    if parentClasses.contains c then dedupFilterAux parentClasses seen rest
    else if seen.contains c then dedupFilterAux parentClasses seen rest
    else c :: dedupFilterAux parentClasses (c :: seen) rest

def ruleClassNames (parentClasses : List String)
    (resolvedSelectors : List (List Char)) : List String :=
  dedupFilterAux parentClasses []
    ((resolvedSelectors.map extractClassesFromSelector).flatten)

structure ScopeFrame where
  selectors : List (List Char)
  line : Nat
deriving Repr

structure ParserState where
  classes : List CssClassDefinition
  scopeStack : List ScopeFrame
  selectorBuffer : List Char
  selectorStartLine : Nat
  selectorStartCol : Nat
  inComment : Bool
  inString : Option Char
deriving Repr

def ParserState.initial : ParserState := ⟨[], [], [], 0, 0, false, none⟩

/-- Parent selectors of the current scope (top of the stack, empty at
file scope). -/
def parentSelsOf (stack : List ScopeFrame) : List (List Char) :=
  match stack with
  | [] => []
  | f :: _ => f.selectors

/-- The opening-brace handler of `parseCssClasses`: resolve the buffered
selector, emit one definition per surviving class token, and push the new
scope frame.  An empty buffer (selector-less block) pushes a frame that
inherits the parent selectors. -/
def openBrace (cfg : CssClassesConfig) (filePath : String)
    (lineIdx col : Nat) (s : ParserState) : ParserState :=
  let rawSelector := trimChars s.selectorBuffer
  let s := { s with selectorBuffer := [] }
  if rawSelector ≠ [] then
    let parentSels := parentSelsOf s.scopeStack
    let resolvedSelectors :=
      resolveSelectors rawSelector parentSels cfg.resolveNesting
    let parentClasses := (parentSels.map extractClassesFromSelector).flatten
    let names := ruleClassNames parentClasses resolvedSelectors
    let newDefs := names.map (fun cls =>
      { className := cls
        filePath := filePath
        line := (s.selectorStartLine : Int)
        column := (s.selectorStartCol : Int)
        endLine := (lineIdx : Int)
        endColumn := (col : Int)
        rawSelector := String.mk rawSelector
        nested := !s.scopeStack.isEmpty
        bem := if cfg.bemEnabled then
            parseBem cls cfg.elementSep cfg.modifierSep
          else none : CssClassDefinition })
    { s with classes := s.classes ++ newDefs
             scopeStack := ⟨resolvedSelectors, lineIdx⟩ :: s.scopeStack }
  else
    { s with scopeStack :=
        ⟨parentSelsOf s.scopeStack, lineIdx⟩ :: s.scopeStack }

/-- The selector-start tracking of `parseCssClasses`: record the start
position when the trimmed buffer is empty and this is a structural-free
character. -/
def trackStart (lineIdx col : Nat) (ch : Char) (s : ParserState) :
    ParserState :=
  if trimChars s.selectorBuffer = [] ∧ ch ≠ ' ' ∧ ch ≠ '\t' ∧
      ch ≠ lbrace ∧ ch ≠ rbrace ∧ ch ≠ ';' then
    { s with selectorStartLine := lineIdx, selectorStartCol := col }
  else s

/-- One character of the `parseCssClasses` loop: the updated state, the
updated line-comment flag, and the number of characters consumed (2 when
a comment delimiter's second character is skipped). -/
def charStep (cfg : CssClassesConfig) (filePath : String) (lineIdx : Nat)
    (ch : Char) (next? : Option Char) (col : Nat) (prev : Option Char)
    (ilc : Bool) (s : ParserState) : ParserState × Bool × Nat :=
  match s.inString with
  | some q =>
    if ch = q ∧ (col = 0 ∨ prev ≠ some '\\') then
      ({ s with inString := none }, ilc, 1)
    else (s, ilc, 1)
  | none =>
    if s.inComment then
      if ch = '*' ∧ next? = some '/' then
        ({ s with inComment := false }, ilc, 2)
      else (s, ilc, 1)
    else if ilc then (s, ilc, 1)
    else if ch = '/' ∧ next? = some '*' then
      ({ s with inComment := true }, ilc, 2)
    else if ch = '/' ∧ next? = some '/' then (s, true, 1)
    else if ch = '"' ∨ ch = '\'' then ({ s with inString := some ch }, ilc, 1)
    else
      let s := trackStart lineIdx col ch s
      if ch = lbrace then (openBrace cfg filePath lineIdx col s, ilc, 1)
      else if ch = rbrace then
        ({ s with selectorBuffer := [], scopeStack := s.scopeStack.tail },
          ilc, 1)
      else if ch = ';' then ({ s with selectorBuffer := [] }, ilc, 1)
      else ({ s with selectorBuffer := s.selectorBuffer ++ [ch] }, ilc, 1)

/-- The character loop of `parseCssClasses` over one physical line.
`col` is the current column, `prev` the previous character of the line,
`ilc` the in-line-comment flag (reset at each line). -/
def goChars (cfg : CssClassesConfig) (filePath : String) (lineIdx : Nat) :
    Nat → List Char → Nat → Option Char → Bool → ParserState → ParserState
  | 0, _, _, _, _, s => s
  | _, [], _, _, _, s => s
  | fuel + 1, ch :: rest, col, prev, ilc, s =>
    let step := charStep cfg filePath lineIdx ch rest.head? col prev ilc s
    if step.2.2 = 2 then
      goChars cfg filePath lineIdx fuel (rest.drop 1) (col + 2)
        (some (rest.headD ch)) step.2.1 step.1
    else
      goChars cfg filePath lineIdx fuel rest (col + 1) (some ch)
        step.2.1 step.1

/-- JavaScript `content.split` on the newline character, producing the
list of physical lines (the empty string yields one empty line, a
trailing newline yields a final empty line). -/
def splitOnCharAux (sep : Char) : List Char → List Char → List (List Char)
  | [], current => [current.reverse]
  | c :: rest, current =>
    if c = sep then current.reverse :: splitOnCharAux sep rest []
    else splitOnCharAux sep rest (c :: current)

def splitLines (content : String) : List (List Char) :=
  splitOnCharAux '\n' content.data []

/-- Process one physical line: run the character loop (the line-comment
flag starts false), then append the implicit newline separator to a
non-empty selector buffer outside comments. -/
def procLine (cfg : CssClassesConfig) (filePath : String) (lineIdx : Nat)
    (line : List Char) (s : ParserState) : ParserState :=
  let s := goChars cfg filePath lineIdx line.length line 0 none false s
  if 0 < s.selectorBuffer.length ∧ s.inComment = false then
    { s with selectorBuffer := s.selectorBuffer ++ [' '] }
  else s

def procLines (cfg : CssClassesConfig) (filePath : String) :
    Nat → List (List Char) → ParserState → ParserState
  | _, [], s => s
  | lineIdx, line :: rest, s =>
    procLines cfg filePath (lineIdx + 1) rest
      (procLine cfg filePath lineIdx line s)

/-- `parseCssClasses` from src/parsers/css-parser.ts. -/
def parseCssClasses (content filePath : String) (cfg : CssClassesConfig) :
    List CssClassDefinition :=
  (procLines cfg filePath 0 (splitLines content) ParserState.initial).classes

/-! ## SCSS directive parser (src/parsers/css-parser.ts, `parseScssDirectives`) -/

structure ScssMixin where
  name : String
  filePath : String
  line : Int
  column : Int
  parameters : List String
deriving DecidableEq, Repr

structure ScssExtend where
  targetClassName : String
  sourceClassName : String
  filePath : String
  line : Int
  column : Int
deriving DecidableEq, Repr

structure ScssInclude where
  mixinName : String
  contextClassName : Option String
  filePath : String
  line : Int
  column : Int
deriving DecidableEq, Repr

structure ScssDirectives where
  mixins : List ScssMixin
  exts : List ScssExtend
  incs : List ScssInclude
deriving DecidableEq, Repr

/-- Tail of the directive regexes: optional whitespace, an optional
occurrence of `opt`, optional whitespace, end of line. -/
def optCharThenEnd (opt : Char) (r : List Char) : Bool :=
  let r := r.dropWhile Char.isWhitespace
  let r := match r with
    | c :: r2 => if c = opt then r2 else c :: r2
    | [] => []
  (r.dropWhile Char.isWhitespace).isEmpty

/-- Clean one mixin parameter: trim, strip a leading dollar sign, cut at
the first colon, trim again. -/
def cleanParam (p : List Char) : List Char :=
  let p := trimChars p
  let p := match p with
    | '$' :: r => r
    | _ => p
  trimChars (p.takeWhile (· ≠ ':'))

def splitOnCharAll (sep : Char) (l : List Char) : List (List Char) :=
  splitOnCharAux sep l []

/-- Split a parameter string on commas and clean each entry, dropping
empties. -/
def parseParams (body : List Char) : List String :=
  (((splitOnCharAll ',' body).map cleanParam).filter (· ≠ [])).map String.mk

/-- Anchored match for the mixin-definition regex: at-mixin, whitespace,
name, optional parameter group, optional opening brace, end of line.
Returns the name and the raw parameter text. -/
def matchMixin (l : List Char) : Option (List Char × List Char) :=
  let kw := "@mixin".data
  if !kw.isPrefixOf l then none
  else
    let r := l.drop kw.length
    if (r.takeWhile Char.isWhitespace).isEmpty then none
    else
      let r := r.dropWhile Char.isWhitespace
      let name := r.takeWhile isIdentChar
      if name.isEmpty then none
      else
        let r := (r.drop name.length).dropWhile Char.isWhitespace
        let finish := fun (params : List Char) (r2 : List Char) =>
          let r2 := r2.dropWhile Char.isWhitespace
          let r2 := match r2 with
            | c :: r3 => if c = lbrace then r3 else c :: r3
            | [] => []
          if (r2.dropWhile Char.isWhitespace).isEmpty then some (name, params)
          else none
        match r with
        | '(' :: r2 =>
          let body := r2.takeWhile (· ≠ ')')
          (match r2.drop body.length with
           | ')' :: r3 => finish body r3
           | _ => none)
        | _ => finish [] r

/-- Anchored match for the extend regex: at-extend, whitespace, a dot,
a class name, optional semicolon, end of line. -/
def matchExtendDir (l : List Char) : Option (List Char) :=
  let kw := "@extend".data
  if !kw.isPrefixOf l then none
  else
    let r := l.drop kw.length
    if (r.takeWhile Char.isWhitespace).isEmpty then none
    else
      match r.dropWhile Char.isWhitespace with
      | '.' :: r2 =>
        let name := r2.takeWhile isIdentChar
        if name.isEmpty then none
        else if optCharThenEnd ';' (r2.drop name.length) then some name
        else none
      | _ => none

/-- Anchored match for the include regex: at-include, whitespace, a
possibly namespaced mixin name, optional argument group, optional
semicolon, end of line. -/
def matchIncludeDir (l : List Char) : Option (List Char) :=
  let kw := "@include".data
  if !kw.isPrefixOf l then none
  else
    let r := l.drop kw.length
    if (r.takeWhile Char.isWhitespace).isEmpty then none
    else
      let r := r.dropWhile Char.isWhitespace
      let name := r.takeWhile (fun c => isIdentChar c || c = '.')
      if name.isEmpty then none
      else
        let r := (r.drop name.length).dropWhile Char.isWhitespace
        match r with
        | '(' :: r2 =>
          let body := r2.takeWhile (· ≠ ')')
          (match r2.drop body.length with
           | ')' :: r3 => if optCharThenEnd ';' r3 then some name else none
           | _ => none)
        | _ => if optCharThenEnd ';' r then some name else none

/-- First class token of a selector (the first regex match). -/
def firstClassOf (sel : List Char) : Option String :=
  (extractClassesFromSelector sel).head?

/-- `getCurrentClassContext`: walk the raw-selector scope stack from the
innermost frame (head) outward, returning the first class token and
lazily resolving an ampersand against the outer context. -/
def getCurrentClassContext : List (List Char) → Option String
  | [] => none
  | selector :: outer =>
    match firstClassOf selector with
    | some cls =>
      if selector.contains '&' ∧ outer ≠ [] then
        match getCurrentClassContext outer with
        | some parentCtx =>
          (match firstClassOf (replaceAmp selector ('.' :: parentCtx.data)) with
           | some r => some r
           | none => some cls)
        | none => some cls
      else some cls
    | none => getCurrentClassContext outer

structure DirState where
  mixins : List ScssMixin
  exts : List ScssExtend
  incs : List ScssInclude
  scopeStack : List (List Char)
  selectorBuffer : List Char
  inComment : Bool
  inString : Option Char
deriving Repr

def DirState.initial : DirState := ⟨[], [], [], [], [], false, none⟩

/-- JS `line.indexOf(keyword)` as the stored column (-1 when absent). -/
def idxOfAsInt (needle line : List Char) : Int :=
  match idxOf needle line with
  | some n => (n : Int)
  | none => -1

/-- Directive matching on the raw line, gated on the comment and string
state at the start of the line. -/
def matchDirectivesOnLine (filePath : String) (lineIdx : Nat)
    (line : List Char) (s : DirState) : DirState :=
  if s.inComment = false ∧ s.inString = none then
    let trimmedLine := trimChars line
    let s :=
      match matchMixin trimmedLine with
      | some (name, paramsStr) =>
        { s with mixins := s.mixins ++
            [⟨String.mk name, filePath, (lineIdx : Int),
              idxOfAsInt "@mixin".data line, parseParams paramsStr⟩] }
      | none => s
    let s :=
      match matchExtendDir trimmedLine with
      | some target =>
        let sourceClassName :=
          match getCurrentClassContext s.scopeStack with
          | some ctx => ctx
          | none => "(unknown)"
        { s with exts := s.exts ++
            [⟨String.mk target, sourceClassName, filePath, (lineIdx : Int),
              idxOfAsInt "@extend".data line⟩] }
      | none => s
    let s :=
      match matchIncludeDir trimmedLine with
      | some name =>
        { s with incs := s.incs ++
            [⟨String.mk name, getCurrentClassContext s.scopeStack, filePath,
              (lineIdx : Int), idxOfAsInt "@include".data line⟩] }
      | none => s
    s
  else s

/-- Character loop of `parseScssDirectives` (same state machine as the
class parser, but frames are raw selector strings). -/
def goCharsDir : Nat → List Char → Nat → Option Char → Bool → DirState →
    DirState
  | 0, _, _, _, _, s => s
  | _, [], _, _, _, s => s
  | fuel + 1, ch :: rest, col, prev, ilc, s =>
    let next? : Option Char := rest.head?
    match s.inString with
    | some q =>
      if ch = q ∧ (col = 0 ∨ prev ≠ some '\\') then
        goCharsDir fuel rest (col + 1) (some ch) ilc { s with inString := none }
      else goCharsDir fuel rest (col + 1) (some ch) ilc s
    | none =>
      if s.inComment then
        if ch = '*' ∧ next? = some '/' then
          goCharsDir fuel (rest.drop 1) (col + 2) (some '/') ilc
            { s with inComment := false }
        else goCharsDir fuel rest (col + 1) (some ch) ilc s
      else if ilc then goCharsDir fuel rest (col + 1) (some ch) ilc s
      else if ch = '/' ∧ next? = some '*' then
        goCharsDir fuel (rest.drop 1) (col + 2) (some '*') ilc
          { s with inComment := true }
      else if ch = '/' ∧ next? = some '/' then
        goCharsDir fuel rest (col + 1) (some ch) true s
      else if ch = '"' ∨ ch = '\'' then
        goCharsDir fuel rest (col + 1) (some ch) ilc
          { s with inString := some ch }
      else if ch = lbrace then
        goCharsDir fuel rest (col + 1) (some ch) ilc
          { s with selectorBuffer := []
                   scopeStack := trimChars s.selectorBuffer :: s.scopeStack }
      else if ch = rbrace then
        goCharsDir fuel rest (col + 1) (some ch) ilc
          { s with selectorBuffer := [], scopeStack := s.scopeStack.tail }
      else if ch = ';' then
        goCharsDir fuel rest (col + 1) (some ch) ilc
          { s with selectorBuffer := [] }
      else
        goCharsDir fuel rest (col + 1) (some ch) ilc
          { s with selectorBuffer := s.selectorBuffer ++ [ch] }

def procLineDir (filePath : String) (lineIdx : Nat) (line : List Char)
    (s : DirState) : DirState :=
  let s := matchDirectivesOnLine filePath lineIdx line s
  let s := goCharsDir line.length line 0 none false s
  if 0 < s.selectorBuffer.length ∧ s.inComment = false then
    { s with selectorBuffer := s.selectorBuffer ++ [' '] }
  else s

def procLinesDir (filePath : String) :
    Nat → List (List Char) → DirState → DirState
  | _, [], s => s
  | lineIdx, line :: rest, s =>
    procLinesDir filePath (lineIdx + 1) rest
      (procLineDir filePath lineIdx line s)

/-- `parseScssDirectives` from src/parsers/css-parser.ts. -/
def parseScssDirectives (content filePath : String) : ScssDirectives :=
  let s := procLinesDir filePath 0 (splitLines content) DirState.initial
  ⟨s.mixins, s.exts, s.incs⟩

/-! ## POSIX path helpers (node:path)

`resolve`, `join`, `dirname`, `basename`, `extname` restricted to POSIX
separators.  `resolve` omits the prepending of the process working
directory for fully relative results: paths are abstract keys handed to
the file-read collaborator, and every absolute input behaves exactly as
in Node. -/

def normAux (isAbs : Bool) : List (List Char) → List (List Char) →
    List (List Char)
  | [], acc => acc.reverse
  | seg :: rest, acc =>
    if seg = [] ∨ seg = ['.'] then normAux isAbs rest acc
    else if seg = ['.', '.'] then
      match acc with
      | top :: acc2 =>
        if top = ['.', '.'] then normAux isAbs rest (seg :: acc)
        else normAux isAbs rest acc2
      | [] =>
        if isAbs then normAux isAbs rest []
        else normAux isAbs rest [seg]
    else normAux isAbs rest (seg :: acc)

def joinSegs (isAbs : Bool) (segs : List (List Char)) : String :=
  let body := String.mk (segs.intersperse ['/']).flatten
  if isAbs then "/" ++ body
  else if body = "" then "." else body

def normalizeCombined (combined : List Char) : String :=
  let isAbs := combined.head? = some '/'
  joinSegs isAbs (normAux isAbs (splitOnCharAll '/' combined) [])

/-- node:path `resolve`: the last absolute part wins, later relative parts
are appended, and the result is normalized. -/
def pathResolve (parts : List String) : String :=
  let combined := parts.foldl (fun acc p =>
    if strStartsWith p "/" then p.data
    else if p.data = [] then acc
    else if acc = [] then p.data
    else acc ++ '/' :: p.data) []
  normalizeCombined combined

/-- node:path `join` of two parts. -/
def pathJoin (a b : String) : String :=
  let combined :=
    if a.data = [] then b.data
    else if b.data = [] then a.data
    else a.data ++ '/' :: b.data
  normalizeCombined combined

/-- node:path `dirname`. -/
def pathDirname (p : String) : String :=
  let l := p.data
  if !l.contains '/' then "."
  else
    let isAbs := l.head? = some '/'
    let segs := (splitOnCharAll '/' l).filter (· ≠ [])
    let init := segs.dropLast
    if init = [] then (if isAbs then "/" else ".")
    else
      (if isAbs then "/" else "") ++ String.mk (init.intersperse ['/']).flatten

/-- node:path `basename`. -/
def pathBasename (p : String) : String :=
  match ((splitOnCharAll '/' p.data).filter (· ≠ [])).getLast? with
  | some s => String.mk s
  | none => ""

/-- node:path `extname`: from the last dot of the basename, empty for a
leading dot. -/
def pathExtname (p : String) : String :=
  let b := (pathBasename p).data
  if b = ['.'] ∨ b = ['.', '.'] then ""
  else
    match idxOf ['.'] b.reverse with
    | none => ""
    | some k =>
      let idx := b.length - 1 - k
      if idx = 0 then "" else String.mk (b.drop idx)

/-! ## Source-map resolver (src/utils/sourcemap.ts) -/

deriving instance DecidableEq for Except

structure SourceMap where
  version : Int
  sources : List String
  sourceRoot : Option String
  mappings : String
deriving Repr

structure SourceMapMapping where
  originalFilePath : String
  originalLine : Int
  originalColumn : Int
deriving DecidableEq, Repr

structure DecodedSegment where
  generatedColumn : Int
  sourceIndex : Int
  originalLine : Int
  originalColumn : Int
  nameIndex : Option Int
deriving DecidableEq, Repr

/-- JavaScript 32-bit coercions: bitwise operators act on the two's
complement 32-bit image of a number. -/
def jsUint32 (i : Int) : Nat := (i % (4294967296 : Int)).toNat

def jsInt32OfNat (n : Nat) : Int :=
  let m := n % 4294967296
  if m < 2147483648 then (m : Int) else (m : Int) - 4294967296

def jsOr (a b : Int) : Int := jsInt32OfNat (jsUint32 a ||| jsUint32 b)

def jsShl (a : Int) (s : Nat) : Int :=
  jsInt32OfNat (jsUint32 a <<< (s % 32))

/-- JavaScript signed right shift by one (arithmetic, floor division). -/
def jsShr1 (a : Int) : Int := Int.fdiv a 2

def VLQ_CHARS : List Char :=
  "ABCDEFGHIJKLMNOPQRSTUVWXYZabcdefghijklmnopqrstuvwxyz0123456789+/".data

def vlqLookup (c : Char) : Option Nat := VLQ_CHARS.findIdx? (· = c)

/-- Final sign decoding of a VLQ value: the least-significant bit is the
sign, the magnitude is the value shifted right by one. -/
def vlqFinish (result : Int) : Int :=
  let isNeg := jsUint32 result % 2 = 1
  let r := jsShr1 result
  if isNeg then -r else r

/-- `decodeVlq`: decode one VLQ value from the front of the mappings
text; an unknown character is the thrown `Invalid VLQ character` error. -/
def decodeVlqAux : List Char → Int → Nat → Except String (Int × List Char)
  | [], result, _ => .ok (vlqFinish result, [])
  | c :: rest, result, shift =>
    match vlqLookup c with
    | none => .error ("Invalid VLQ character: " ++ String.mk [c])
    | some digit =>
      let result := jsOr result (jsShl (Int.ofNat (digit &&& 31)) shift)
      if digit &&& 32 = 0 then .ok (vlqFinish result, rest)
      else decodeVlqAux rest result (shift + 5)

def decodeVlq (l : List Char) : Except String (Int × List Char) :=
  decodeVlqAux l 0 0

/-- Running deltas carried across the whole mappings string. -/
structure VlqState where
  sourceIndex : Int
  originalLine : Int
  originalColumn : Int
  nameIndex : Int
deriving Repr

/-- The `decodeMappings` loop.  One iteration consumes at least one
character, so fuel equal to the text length plus one always suffices. -/
def decodeMappingsAux : Nat → List Char → Int → VlqState →
    List DecodedSegment → List (List DecodedSegment) →
    Except String (List (List DecodedSegment))
  | 0, _, _, _, currentLine, lines => .ok (lines ++ [currentLine])
  | _ + 1, [], _, _, currentLine, lines => .ok (lines ++ [currentLine])
  | fuel + 1, ch :: rest, genCol, st, currentLine, lines =>
    if ch = ';' then
      decodeMappingsAux fuel rest 0 st [] (lines ++ [currentLine])
    else if ch = ',' then
      decodeMappingsAux fuel rest genCol st currentLine lines
    else
      match decodeVlq (ch :: rest) with
      | .error e => .error e
      | .ok (v1, r1) =>
        let genCol := genCol + v1
        match r1 with
        | [] => decodeMappingsAux fuel [] genCol st currentLine lines
        | c1 :: _ =>
          if c1 = ',' ∨ c1 = ';' then
            decodeMappingsAux fuel r1 genCol st currentLine lines
          else
            match decodeVlq r1 with
            | .error e => .error e
            | .ok (v2, r2) =>
              let srcIdx := st.sourceIndex + v2
              match decodeVlq r2 with
              | .error e => .error e
              | .ok (v3, r3) =>
                let origLine := st.originalLine + v3
                match decodeVlq r3 with
                | .error e => .error e
                | .ok (v4, r4) =>
                  let origCol := st.originalColumn + v4
                  let pushNoName := fun (r5 : List Char) =>
                    decodeMappingsAux fuel r5 genCol
                      ⟨srcIdx, origLine, origCol, st.nameIndex⟩
                      (currentLine ++ [⟨genCol, srcIdx, origLine, origCol, none⟩])
                      lines
                  match r4 with
                  | [] => pushNoName []
                  | c4 :: _ =>
                    if c4 = ',' ∨ c4 = ';' then pushNoName r4
                    else
                      match decodeVlq r4 with
                      | .error e => .error e
                      | .ok (v5, r5) =>
                        let nameIdx := st.nameIndex + v5
                        decodeMappingsAux fuel r5 genCol
                          ⟨srcIdx, origLine, origCol, nameIdx⟩
                          (currentLine ++
                            [⟨genCol, srcIdx, origLine, origCol, some nameIdx⟩])
                          lines

def decodeMappings (mappings : List Char) :
    Except String (List (List DecodedSegment)) :=
  decodeMappingsAux (mappings.length + 1) mappings 0 ⟨0, 0, 0, 0⟩ [] []

/-- JavaScript array indexing with a possibly negative index. -/
def listGetInt? {α : Type} (l : List α) (i : Int) : Option α :=
  if i < 0 then none else l[i.toNat]?

/-- The best-segment scan: the last segment whose generated column does
not exceed the target (the loop breaks at the first segment past it). -/
def pickSegment (target : Int) : List DecodedSegment →
    Option DecodedSegment → Option DecodedSegment
  | [], best => best
  | seg :: rest, best =>
    if seg.generatedColumn ≤ target then pickSegment target rest (some seg)
    else best

/-- `resolveOriginalPosition` from src/utils/sourcemap.ts.  An `error`
value is a JavaScript exception escaping the call (nothing in the source
catches it). -/
def resolveOriginalPosition (map : SourceMap) (generatedLine : Int)
    (generatedColumn : Int) (mapFilePath : String) :
    Except String (Option SourceMapMapping) :=
  match decodeMappings map.mappings.data with
  | .error e => .error e
  | .ok decoded =>
    if (decoded.length : Int) ≤ generatedLine then .ok none
    else
      match listGetInt? decoded generatedLine with
      | none => .error "TypeError: undefined line segments"
      | some lineSegments =>
        if lineSegments = [] then .ok none
        else
          let bestSegment :=
            match pickSegment generatedColumn lineSegments none with
            | some b => b
            | none => lineSegments.headD ⟨0, 0, 0, 0, none⟩
          if (map.sources.length : Int) ≤ bestSegment.sourceIndex then .ok none
          else
            match listGetInt? map.sources bestSegment.sourceIndex with
            | none => .error "TypeError: path argument must be a string"
            | some sourcePath =>
              let sourceRoot := match map.sourceRoot with
                | some r => r
                | none => ""
              let mapDir := pathDirname mapFilePath
              .ok (some ⟨pathResolve [mapDir, sourceRoot, sourcePath],
                    bestSegment.originalLine, bestSegment.originalColumn⟩)

/-! ## Import resolver (src/core/import-resolver.ts) -/

inductive ImportType
  | atImport
  | atUse
  | atForward
deriving DecidableEq, Repr

structure ImportStatement where
  specifier : String
  line : Int
  type : ImportType
deriving DecidableEq, Repr

/-- Anchored match for the quoted forms: keyword, whitespace, a quote, a
non-empty body free of quotes, the same quote again. -/
def matchAtQuoted (kw l : List Char) : Option (List Char) :=
  if !kw.isPrefixOf l then none
  else
    let r := l.drop kw.length
    if (r.takeWhile Char.isWhitespace).isEmpty then none
    else
      match r.dropWhile Char.isWhitespace with
      | q :: rest =>
        if q = '"' ∨ q = '\'' then
          let body := rest.takeWhile (fun c => decide (c ≠ '"' ∧ c ≠ '\''))
          if body.isEmpty then none
          else
            match rest.drop body.length with
            | c :: _ => if c = q then some body else none
            | [] => none
        else none
      | [] => none

/-- Anchored match for the url form: at-import, whitespace, a url group
with an optional quote, a body free of quotes, close parens and spaces. -/
def matchImportUrl (l : List Char) : Option (List Char) :=
  let kw := "@import".data
  if !kw.isPrefixOf l then none
  else
    let r := l.drop kw.length
    if (r.takeWhile Char.isWhitespace).isEmpty then none
    else
      let r := r.dropWhile Char.isWhitespace
      let u := "url(".data
      if !u.isPrefixOf r then none
      else
        let r := (r.drop u.length).dropWhile Char.isWhitespace
        let parseBody := fun (q? : Option Char) (r2 : List Char) =>
          let body := r2.takeWhile
            (fun c => decide (c ≠ '\'' ∧ c ≠ '"' ∧ c ≠ ')' ∧ ¬ c.isWhitespace = true))
          if body.isEmpty then none
          else
            let r3 := r2.drop body.length
            let r3? := match q? with
              | some q =>
                (match r3 with
                 | c :: r4 => if c = q then some r4 else none
                 | [] => none)
              | none => some r3
            match r3? with
            | none => none
            | some r4 =>
              match r4.dropWhile Char.isWhitespace with
              | ')' :: _ => some body
              | _ => none
        match r with
        | c :: r2 =>
          if c = '"' ∨ c = '\'' then parseBody (some c) r2
          else parseBody none (c :: r2)
        | [] => none

/-- The per-line matcher chain of `extractImports` (first match wins). -/
def extractImportsLine (trimmed : List Char) :
    Option (List Char × ImportType) :=
  match matchAtQuoted "@import".data trimmed with
  | some spec => some (spec, .atImport)
  | none =>
    match matchImportUrl trimmed with
    | some spec => some (spec, .atImport)
    | none =>
      match matchAtQuoted "@use".data trimmed with
      | some spec => some (spec, .atUse)
      | none =>
        match matchAtQuoted "@forward".data trimmed with
        | some spec => some (spec, .atForward)
        | none => none

def extractImportsAux : Nat → List (List Char) → List ImportStatement
  | _, [] => []
  | i, line :: rest =>
    match extractImportsLine (trimChars line) with
    | some (spec, t) =>
      ⟨String.mk spec, (i : Int), t⟩ :: extractImportsAux (i + 1) rest
    | none => extractImportsAux (i + 1) rest

/-- `extractImports` from src/core/import-resolver.ts: line-oriented
extraction of at-import / at-use / at-forward statements; there is no
comment or string state. -/
def extractImports (content : String) : List ImportStatement :=
  extractImportsAux 0 (splitLines content)

/-- `buildResolutionCandidates` from src/core/import-resolver.ts. -/
def buildResolutionCandidates (specifier fromDir : String) : List String :=
  let ext := pathExtname specifier
  let resolved := pathResolve [fromDir, specifier]
  let dir := pathDirname resolved
  let base := pathBasename resolved
  let underscoreBase := "_" ++ (if ext ≠ "" then base else base ++ ".scss")
  (if ext ≠ "" then [resolved] else []) ++
  (if ext = "" then [resolved ++ ".scss", resolved ++ ".css"] else []) ++
  [pathJoin dir underscoreBase] ++
  (if ext = "" then [pathJoin dir ("_" ++ base ++ ".css")] else []) ++
  (if ext = "" then
    [pathJoin resolved "_index.scss", pathJoin resolved "index.scss",
     pathJoin resolved "_index.css", pathJoin resolved "index.css"]
   else [])

/-- The candidate probe loop: first candidate the reader can read. -/
def findFirstReadable (read : String → Option String) :
    List String → Option String
  | [] => none
  | c :: rest =>
    if (read c).isSome then some c else findFirstReadable read rest

/-- `resolveImportPath` from src/core/import-resolver.ts, parameterized
by the file-read collaborator (`none` = does not exist / unreadable). -/
def resolveImportPath (read : String → Option String)
    (specifier fromFile : String) : Option String :=
  if strStartsWith specifier "http://" ∨ strStartsWith specifier "https://" ∨
      strStartsWith specifier "//" then none
  else
    findFirstReadable read
      (buildResolutionCandidates specifier (pathDirname fromFile))

/-! ## Class-definition index (src/core/css-index.ts)

JavaScript `Map`s are insertion-ordered association lists (`aSet` keeps
an existing key in place, `aDel` removes it); `Set`s are lists of
distinct elements in insertion order. -/

def aGet {α : Type} : List (String × α) → String → Option α
  | [], _ => none
  | (k2, v) :: rest, k => if k2 = k then some v else aGet rest k

def aSet {α : Type} : List (String × α) → String → α → List (String × α)
  | [], k, v => [(k, v)]
  | (k2, v2) :: rest, k, v =>
    if k2 = k then (k2, v) :: rest else (k2, v2) :: aSet rest k v

def aDel {α : Type} : List (String × α) → String → List (String × α)
  | [], _ => []
  | (k2, v2) :: rest, k => if k2 = k then rest else (k2, v2) :: aDel rest k

def sAdd (s : List String) (x : String) : List String :=
  if s.contains x then s else s ++ [x]

structure CssIndexState where
  index : List (String × List CssClassDefinition)
  fileIndex : List (String × List String)
  mixinIndex : List (String × List ScssMixin)
  extendIndex : List (String × List ScssExtend)
  includeIndex : List (String × List ScssInclude)
  fileDirectives : List (String × ScssDirectives)
deriving DecidableEq, Repr

def CssIndexState.empty : CssIndexState := ⟨[], [], [], [], [], []⟩

/-- `lookup`: definitions of a class name, empty when absent. -/
def lookup (s : CssIndexState) (className : String) :
    List CssClassDefinition :=
  (aGet s.index className).getD []

/-- `addDefinition`: append to the name entry and record the class name
under the definition's own file path. -/
def addDefinition (s : CssIndexState) (d : CssClassDefinition) :
    CssIndexState :=
  let existing := (aGet s.index d.className).getD []
  let s := { s with index := aSet s.index d.className (existing ++ [d]) }
  let fileClasses := (aGet s.fileIndex d.filePath).getD []
  { s with fileIndex :=
      (aSet s.fileIndex d.filePath (sAdd fileClasses d.className)) }

/-- One step of the `removeFile` class loop: filter the file's entries
out of one class name's definition list, deleting the entry when it
becomes empty. -/
def removeClassEntry (filePath : String) (st : CssIndexState)
    (className : String) : CssIndexState :=
  match aGet st.index className with
  | none => st
  | some defs =>
    let filtered := defs.filter (fun d => d.filePath ≠ filePath)
    if filtered ≠ [] then
      { st with index := aSet st.index className filtered }
    else { st with index := aDel st.index className }

/-- The class-map half of `removeFile`. -/
def removeFileClasses (s : CssIndexState) (filePath : String) :
    CssIndexState :=
  match aGet s.fileIndex filePath with
  | none => s
  | some classNames =>
    let s := classNames.foldl (removeClassEntry filePath) s
    { s with fileIndex := aDel s.fileIndex filePath }

/-- One step of each `removeDirectives` loop. -/
def removeMixinEntry (filePath : String) (st : CssIndexState)
    (m : ScssMixin) : CssIndexState :=
  match aGet st.mixinIndex m.name with
  | none => st
  | some existing =>
    let filtered := existing.filter (fun x => x.filePath ≠ filePath)
    if filtered ≠ [] then
      { st with mixinIndex := aSet st.mixinIndex m.name filtered }
    else { st with mixinIndex := aDel st.mixinIndex m.name }

def removeExtendEntry (filePath : String) (st : CssIndexState)
    (e : ScssExtend) : CssIndexState :=
  match aGet st.extendIndex e.targetClassName with
  | none => st
  | some existing =>
    let filtered := existing.filter (fun x => x.filePath ≠ filePath)
    if filtered ≠ [] then
      { st with extendIndex := (aSet st.extendIndex e.targetClassName filtered) }
    else { st with extendIndex := aDel st.extendIndex e.targetClassName }

def removeIncludeEntry (filePath : String) (st : CssIndexState)
    (i : ScssInclude) : CssIndexState :=
  match aGet st.includeIndex i.mixinName with
  | none => st
  | some existing =>
    let filtered := existing.filter (fun x => x.filePath ≠ filePath)
    if filtered ≠ [] then
      { st with includeIndex := aSet st.includeIndex i.mixinName filtered }
    else { st with includeIndex := aDel st.includeIndex i.mixinName }

/-- `removeDirectives`. -/
def removeDirectives (s : CssIndexState) (filePath : String) :
    CssIndexState :=
  match aGet s.fileDirectives filePath with
  | none => s
  | some directives =>
    let s := directives.mixins.foldl (removeMixinEntry filePath) s
    let s := directives.exts.foldl (removeExtendEntry filePath) s
    let s := directives.incs.foldl (removeIncludeEntry filePath) s
    { s with fileDirectives := aDel s.fileDirectives filePath }

/-- `removeFile`: drop the file's class definitions and directives;
a never-indexed path falls through both guards. -/
def removeFile (s : CssIndexState) (filePath : String) : CssIndexState :=
  removeDirectives (removeFileClasses s filePath) filePath

/-- One step of each `indexDirectives` loop. -/
def addMixinEntry (st : CssIndexState) (m : ScssMixin) : CssIndexState :=
  { st with mixinIndex :=
      (aSet st.mixinIndex m.name ((aGet st.mixinIndex m.name).getD [] ++ [m])) }

def addExtendEntry (st : CssIndexState) (e : ScssExtend) : CssIndexState :=
  { st with extendIndex :=
      (aSet st.extendIndex e.targetClassName
        ((aGet st.extendIndex e.targetClassName).getD [] ++ [e])) }

def addIncludeEntry (st : CssIndexState) (i : ScssInclude) : CssIndexState :=
  { st with includeIndex :=
      (aSet st.includeIndex i.mixinName
        ((aGet st.includeIndex i.mixinName).getD [] ++ [i])) }

/-- `indexDirectives`. -/
def indexDirectives (s : CssIndexState) (filePath content : String) :
    CssIndexState :=
  let directives := parseScssDirectives content filePath
  let s := { s with fileDirectives :=
      (aSet s.fileDirectives filePath directives) }
  let s := directives.mixins.foldl addMixinEntry s
  let s := directives.exts.foldl addExtendEntry s
  directives.incs.foldl addIncludeEntry s

/-- The redirected definition built by `indexFile` when the source map
resolves an original position. -/
def redirectDef (d : CssClassDefinition) (orig : SourceMapMapping) :
    CssClassDefinition :=
  { d with filePath := orig.originalFilePath
           line := orig.originalLine
           column := orig.originalColumn
           endLine := orig.originalLine
           endColumn := orig.originalColumn + (d.className.length : Int) }

/-- `indexFile` from src/core/css-index.ts, with the file content already
read and `sourceMap` the result of the `findSourceMap` collaborator
(map plus map-file path).  An `error` value is a JavaScript exception
escaping the call. -/
def indexFile (cfg : CssClassesConfig) (s : CssIndexState)
    (filePath content : String) (sourceMap : Option (SourceMap × String)) :
    Except String CssIndexState :=
  let s := removeFile s filePath
  let classes := parseCssClasses content filePath cfg
  match classes.foldlM (fun st d =>
      (match sourceMap with
       | some (m, mapFilePath) =>
         (match resolveOriginalPosition m d.line d.column mapFilePath with
          | Except.error e => Except.error e
          | Except.ok (some orig) =>
            Except.ok (addDefinition st (redirectDef d orig))
          | Except.ok none => Except.ok (addDefinition st d))
       | none => Except.ok (addDefinition st d) :
        Except String CssIndexState)) s with
  | Except.error e => Except.error e
  | Except.ok s2 => Except.ok (indexDirectives s2 filePath content)

/-- The candidate list as the specification words it: the exact path only
when the specifier has an extension, the two extension probes when it has
none, then the underscore-prefixed partial forms, then the directory
index forms. -/
def specCandidates (specifier fromDir : String) : List String :=
  let resolved := pathResolve [fromDir, specifier]
  let dir := pathDirname resolved
  let base := pathBasename resolved
  if pathExtname specifier ≠ "" then
    [resolved, pathJoin dir ("_" ++ base)]
  else
    [resolved ++ ".scss", resolved ++ ".css",
     pathJoin dir ("_" ++ base ++ ".scss"),
     pathJoin dir ("_" ++ base ++ ".css"),
     pathJoin resolved "_index.scss", pathJoin resolved "index.scss",
     pathJoin resolved "_index.css", pathJoin resolved "index.css"]

/-! ## Evaluation checks (cross-validated against the repository test suite) -/

example : splitLines "a\nb" = [['a'], ['b']] := by decide

example :
    (parseCssClasses ".card \x7b &__header \x7b &--highlighted \x7b\x7d \x7d \x7d"
      "/t.scss" defaultConfig).map (·.className) =
    ["card", "card__header", "card__header--highlighted"] := by decide

example :
    (parseCssClasses ".a \x7b .b \x7b &.c \x7b\x7d \x7d \x7d" "/t.scss"
      defaultConfig).map (·.className) = ["a", "b", "c"] := by decide

example :
    (parseCssClasses ".card \x7b @media (min-width: 600px) \x7b &__x \x7b \x7d \x7d \x7d"
      "/t.scss" defaultConfig).map (·.className) = ["card"] := by decide

example :
    (parseCssClasses "/* .fake \x7b \x7d */ .real \x7b \x7d" "/t.css"
      defaultConfig).map (·.className) = ["real"] := by decide

example :
    (parseScssDirectives "@mixin flex($dir, $wrap: nowrap) \x7b" "/m.scss").mixins =
    [⟨"flex", "/m.scss", 0, 0, ["dir", "wrap"]⟩] := by decide

example :
    (parseScssDirectives ".btn \x7b\n  @extend .base;\n\x7d" "/m.scss").exts =
    [⟨"base", "btn", "/m.scss", 1, 2⟩] := by decide

example : pathDirname "/project/dist/output.css.map" = "/project/dist" := by
  decide

example : pathResolve ["/project/dist", "", "../src/component.jsx"] =
    "/project/src/component.jsx" := by decide

example : pathExtname "variables" = "" := by decide

example : pathExtname "_variables.scss" = ".scss" := by decide

example :
    resolveOriginalPosition ⟨3, ["../src/component.jsx"], none, "AAAA"⟩ 0 0
      "/project/dist/output.css.map" =
    .ok (some ⟨"/project/src/component.jsx", 0, 0⟩) := by decide

example :
    resolveOriginalPosition ⟨3, ["input.js"], none, "AAAA"⟩ 999 0
      "/project/output.css.map" = .ok none := by decide

example :
    resolveOriginalPosition ⟨3, ["input.js"], none, "AAAA,KACQ"⟩ 0 6
      "/project/output.css.map" =
    .ok (some ⟨"/project/input.js", 1, 8⟩) := by decide

example :
    resolveOriginalPosition ⟨3, ["input.js"], none, ";;AAAA"⟩ 0 0
      "/project/output.css.map" = .ok none := by decide

example :
    resolveOriginalPosition ⟨3, ["input.js"], none, "!"⟩ 0 0
      "/project/output.css.map" = .error "Invalid VLQ character: !" := by
  decide

example :
    buildResolutionCandidates "variables" "/proj" =
    ["/proj/variables.scss", "/proj/variables.css", "/proj/_variables.scss",
     "/proj/_variables.css", "/proj/variables/_index.scss",
     "/proj/variables/index.scss", "/proj/variables/_index.css",
     "/proj/variables/index.css"] := by decide

/-! ## Association-list lemma kit -/

theorem aGet_aSet_self {α : Type} (m : List (String × α)) (k : String)
    (v : α) : aGet (aSet m k v) k = some v := by
  induction m with
  | nil => simp [aSet, aGet]
  | cons kv rest ih =>
    obtain ⟨k2, v2⟩ := kv
    by_cases h : k2 = k <;> simp [aSet, aGet, h, ih]

theorem aGet_aSet_ne {α : Type} (m : List (String × α)) (k k' : String)
    (v : α) (h : k' ≠ k) : aGet (aSet m k v) k' = aGet m k' := by
  induction m with
  | nil =>
    have h1 : ¬ k = k' := fun hh => h hh.symm
    simp [aSet, aGet, h1]
  | cons kv rest ih =>
    obtain ⟨k2, v2⟩ := kv
    by_cases h2 : k2 = k
    · have h4 : ¬ k = k' := fun hh => h hh.symm
      simp [aSet, aGet, h2, h4]
    · by_cases h3 : k2 = k'
      · simp [aSet, aGet, h2, h3, h]
      · simp [aSet, aGet, h2, h3, ih]

theorem aGet_aDel_ne {α : Type} (m : List (String × α)) (k k' : String)
    (h : k' ≠ k) : aGet (aDel m k) k' = aGet m k' := by
  induction m with
  | nil => simp [aDel, aGet]
  | cons kv rest ih =>
    obtain ⟨k2, v2⟩ := kv
    by_cases h2 : k2 = k
    · have h4 : ¬ k = k' := fun hh => h hh.symm
      simp [aDel, aGet, h2, h4]
    · by_cases h3 : k2 = k'
      · simp [aDel, aGet, h2, h3, h]
      · simp [aDel, aGet, h2, h3, ih]

theorem aGet_none_of_not_mem_keys {α : Type} (m : List (String × α))
    (k : String) (h : k ∉ m.map Prod.fst) : aGet m k = none := by
  induction m with
  | nil => simp [aGet]
  | cons kv rest ih =>
    obtain ⟨k2, v2⟩ := kv
    simp only [List.map_cons, List.mem_cons] at h
    push_neg at h
    have h1 : ¬ k2 = k := fun hh => h.1 hh.symm
    simp [aGet, h1, ih h.2]

theorem aGet_aDel_self {α : Type} (m : List (String × α)) (k : String)
    (h : (m.map Prod.fst).Nodup) : aGet (aDel m k) k = none := by
  induction m with
  | nil => simp [aDel, aGet]
  | cons kv rest ih =>
    obtain ⟨k2, v2⟩ := kv
    simp only [List.map_cons, List.nodup_cons] at h
    by_cases h2 : k2 = k
    · subst h2
      simpa [aDel] using aGet_none_of_not_mem_keys rest k2 h.1
    · simp [aDel, aGet, h2, ih h.2]

theorem mem_keys_aSet {α : Type} (m : List (String × α)) (k k' : String)
    (v : α) (h : k' ∈ (aSet m k v).map Prod.fst) :
    k' ∈ m.map Prod.fst ∨ k' = k := by
  induction m with
  | nil => simpa [aSet] using h
  | cons kv rest ih =>
    obtain ⟨k2, v2⟩ := kv
    by_cases h2 : k2 = k
    · subst h2
      simp [aSet] at h ⊢
      tauto
    · simp only [aSet, h2, if_false, List.map_cons, List.mem_cons] at h ⊢
      rcases h with h | h
      · exact Or.inl (Or.inl h)
      · rcases ih h with h3 | h3
        · exact Or.inl (Or.inr h3)
        · exact Or.inr h3

theorem nodupKeys_aSet {α : Type} (m : List (String × α)) (k : String)
    (v : α) (h : (m.map Prod.fst).Nodup) :
    ((aSet m k v).map Prod.fst).Nodup := by
  induction m with
  | nil => simp [aSet]
  | cons kv rest ih =>
    obtain ⟨k2, v2⟩ := kv
    simp only [List.map_cons, List.nodup_cons] at h
    by_cases h2 : k2 = k
    · simp only [aSet, h2, if_true, List.map_cons, List.nodup_cons]
      exact ⟨by simpa [h2] using h.1, h.2⟩
    · simp only [aSet, h2, if_false, List.map_cons, List.nodup_cons]
      refine ⟨fun hmem => ?_, ih h.2⟩
      rcases mem_keys_aSet rest k k2 v hmem with h3 | h3
      · exact h.1 h3
      · exact h2 h3

theorem keys_aDel_sublist {α : Type} (m : List (String × α)) (k : String) :
    ((aDel m k).map Prod.fst).Sublist (m.map Prod.fst) := by
  induction m with
  | nil => simp [aDel]
  | cons kv rest ih =>
    obtain ⟨k2, v2⟩ := kv
    by_cases h2 : k2 = k
    · simpa [aDel, h2] using (List.sublist_cons_self k2 _)
    · simpa [aDel, h2] using ih.cons₂ k2

theorem nodupKeys_aDel {α : Type} (m : List (String × α)) (k : String)
    (h : (m.map Prod.fst).Nodup) : ((aDel m k).map Prod.fst).Nodup :=
  h.sublist (keys_aDel_sublist m k)

example : parseBem "card__header--active" "__" "--" =
    some ⟨"card", some "header", some "active"⟩ := by decide
example : parseBem "alpha" "__" "--" = some ⟨"alpha", none, none⟩ := by decide
example : parseBem "" "__" "--" = none := by decide
example : parseBem "__x" "__" "--" = none := by decide
example : bemTargetAtOffset "card__header--active" 3 "__" "--" = "card" := by decide
example : bemTargetAtOffset "card__header--active" 4 "__" "--" = "card__header" := by decide
example : bemTargetAtOffset "card__header--active" 11 "__" "--" = "card__header" := by decide
example : bemTargetAtOffset "card__header--active" 12 "__" "--" =
    "card__header--active" := by decide

/-! ## State-preservation lemmas -/

theorem foldl_proj_eq {α β : Type} (proj : CssIndexState → β)
    (f : CssIndexState → α → CssIndexState)
    (hf : ∀ st a, proj (f st a) = proj st) :
    ∀ (l : List α) (st : CssIndexState), proj (l.foldl f st) = proj st := by
  intro l
  induction l with
  | nil => intro st; rfl
  | cons a rest ih => intro st; rw [List.foldl_cons, ih, hf]

theorem removeMixinEntry_index (p : String) (st : CssIndexState)
    (m : ScssMixin) : (removeMixinEntry p st m).index = st.index := by
  unfold removeMixinEntry
  rcases aGet st.mixinIndex m.name with _ | ex
  · rfl
  · dsimp only
    split <;> rfl

theorem removeExtendEntry_index (p : String) (st : CssIndexState)
    (e : ScssExtend) : (removeExtendEntry p st e).index = st.index := by
  unfold removeExtendEntry
  rcases aGet st.extendIndex e.targetClassName with _ | ex
  · rfl
  · dsimp only
    split <;> rfl

theorem removeIncludeEntry_index (p : String) (st : CssIndexState)
    (i : ScssInclude) : (removeIncludeEntry p st i).index = st.index := by
  unfold removeIncludeEntry
  rcases aGet st.includeIndex i.mixinName with _ | ex
  · rfl
  · dsimp only
    split <;> rfl

/-- `removeDirectives` never touches the class-definition map. -/
theorem removeDirectives_index (s : CssIndexState) (p : String) :
    (removeDirectives s p).index = s.index := by
  unfold removeDirectives
  rcases aGet s.fileDirectives p with _ | d
  · rfl
  · dsimp only
    rw [foldl_proj_eq _ _ (removeIncludeEntry_index p),
      foldl_proj_eq _ _ (removeExtendEntry_index p),
      foldl_proj_eq _ _ (removeMixinEntry_index p)]

theorem removeMixinEntry_fileIndex (p : String) (st : CssIndexState)
    (m : ScssMixin) : (removeMixinEntry p st m).fileIndex = st.fileIndex := by
  unfold removeMixinEntry
  rcases aGet st.mixinIndex m.name with _ | ex
  · rfl
  · dsimp only
    split <;> rfl

theorem removeExtendEntry_fileIndex (p : String) (st : CssIndexState)
    (e : ScssExtend) : (removeExtendEntry p st e).fileIndex = st.fileIndex := by
  unfold removeExtendEntry
  rcases aGet st.extendIndex e.targetClassName with _ | ex
  · rfl
  · dsimp only
    split <;> rfl

theorem removeIncludeEntry_fileIndex (p : String) (st : CssIndexState)
    (i : ScssInclude) :
    (removeIncludeEntry p st i).fileIndex = st.fileIndex := by
  unfold removeIncludeEntry
  rcases aGet st.includeIndex i.mixinName with _ | ex
  · rfl
  · dsimp only
    split <;> rfl

/-- `removeDirectives` never touches the file mirror map either. -/
theorem removeDirectives_fileIndex (s : CssIndexState) (p : String) :
    (removeDirectives s p).fileIndex = s.fileIndex := by
  unfold removeDirectives
  rcases aGet s.fileDirectives p with _ | d
  · rfl
  · dsimp only
    rw [foldl_proj_eq _ _ (removeIncludeEntry_fileIndex p),
      foldl_proj_eq _ _ (removeExtendEntry_fileIndex p),
      foldl_proj_eq _ _ (removeMixinEntry_fileIndex p)]

theorem foldl_addMixin_index (l : List ScssMixin) (st : CssIndexState) :
    (l.foldl addMixinEntry st).index = st.index :=
  foldl_proj_eq (fun s => s.index) addMixinEntry (fun _ _ => rfl) l st

theorem foldl_addExtend_index (l : List ScssExtend) (st : CssIndexState) :
    (l.foldl addExtendEntry st).index = st.index :=
  foldl_proj_eq (fun s => s.index) addExtendEntry (fun _ _ => rfl) l st

theorem foldl_addInclude_index (l : List ScssInclude) (st : CssIndexState) :
    (l.foldl addIncludeEntry st).index = st.index :=
  foldl_proj_eq (fun s => s.index) addIncludeEntry (fun _ _ => rfl) l st

/-- `indexDirectives` never touches the class-definition map. -/
theorem indexDirectives_index (s : CssIndexState) (p c : String) :
    (indexDirectives s p c).index = s.index := by
  unfold indexDirectives
  dsimp only
  rw [foldl_addInclude_index, foldl_addExtend_index, foldl_addMixin_index]

/-! ## Every parsed definition carries the parsed file's path -/

theorem openBrace_filePath (cfg : CssClassesConfig) (fp : String)
    (li col : Nat) (st : ParserState)
    (h : ∀ d ∈ st.classes, d.filePath = fp) :
    ∀ d ∈ (openBrace cfg fp li col st).classes, d.filePath = fp := by
  intro d hd
  unfold openBrace at hd
  dsimp only at hd
  by_cases hraw : trimChars st.selectorBuffer ≠ []
  · rw [if_pos hraw] at hd
    simp only [List.mem_append] at hd
    rcases hd with hd | hd
    · exact h d hd
    · rcases List.mem_map.mp hd with ⟨cls, _, rfl⟩
      rfl
  · rw [if_neg hraw] at hd
    exact h d hd

theorem trackStart_classes (li col : Nat) (ch : Char) (s : ParserState) :
    (trackStart li col ch s).classes = s.classes := by
  unfold trackStart
  split <;> rfl

theorem charStep_filePath (cfg : CssClassesConfig) (fp : String)
    (li : Nat) (ch : Char) (next? : Option Char) (col : Nat)
    (prev : Option Char) (ilc : Bool) (st : ParserState)
    (h : ∀ d ∈ st.classes, d.filePath = fp) :
    ∀ d ∈ (charStep cfg fp li ch next? col prev ilc st).1.classes,
      d.filePath = fp := by
  have htrack : ∀ d ∈ (trackStart li col ch st).classes, d.filePath = fp := by
    simp only [trackStart_classes]
    exact h
  intro d hd
  unfold charStep at hd
  rcases hq : st.inString with _ | q
  · rw [hq] at hd
    dsimp only at hd
    repeat' split at hd
    all_goals
      first
      | exact h d hd
      | exact htrack d hd
      | exact openBrace_filePath _ _ _ _ _ htrack d hd
  · rw [hq] at hd
    dsimp only at hd
    split at hd <;> exact h d hd

theorem goChars_filePath (cfg : CssClassesConfig) (fp : String) (li : Nat) :
    ∀ (fuel : Nat) (chars : List Char) (col : Nat) (prev : Option Char)
      (ilc : Bool) (st : ParserState),
      (∀ d ∈ st.classes, d.filePath = fp) →
      ∀ d ∈ (goChars cfg fp li fuel chars col prev ilc st).classes,
        d.filePath = fp := by
  intro fuel
  induction fuel with
  | zero =>
    intro chars col prev ilc st h
    cases chars <;> simpa [goChars] using h
  | succ fuel ih =>
    intro chars col prev ilc st h
    cases chars with
    | nil => simpa [goChars] using h
    | cons ch rest =>
      intro d hd
      simp only [goChars] at hd
      split at hd
      · exact ih _ _ _ _ _
          (charStep_filePath cfg fp li ch rest.head? col prev ilc st h) d hd
      · exact ih _ _ _ _ _
          (charStep_filePath cfg fp li ch rest.head? col prev ilc st h) d hd

theorem procLine_filePath (cfg : CssClassesConfig) (fp : String) (li : Nat)
    (line : List Char) (st : ParserState)
    (h : ∀ d ∈ st.classes, d.filePath = fp) :
    ∀ d ∈ (procLine cfg fp li line st).classes, d.filePath = fp := by
  intro d hd
  unfold procLine at hd
  dsimp only at hd
  split at hd
  · exact goChars_filePath cfg fp li _ _ _ _ _ _ h d hd
  · exact goChars_filePath cfg fp li _ _ _ _ _ _ h d hd

theorem procLines_filePath (cfg : CssClassesConfig) (fp : String) :
    ∀ (lines : List (List Char)) (li : Nat) (st : ParserState),
      (∀ d ∈ st.classes, d.filePath = fp) →
      ∀ d ∈ (procLines cfg fp li lines st).classes, d.filePath = fp := by
  intro lines
  induction lines with
  | nil => intro li st h; exact h
  | cons line rest ih =>
    intro li st h
    exact ih _ _ (procLine_filePath cfg fp li line st h)

/-- Every definition produced by `parseCssClasses` carries the parsed
file's path. -/
theorem parseCssClasses_filePath (content fp : String)
    (cfg : CssClassesConfig) :
    ∀ d ∈ parseCssClasses content fp cfg, d.filePath = fp := by
  intro d hd
  exact procLines_filePath cfg fp _ 0 ParserState.initial
    (by intro d hd2; cases hd2) d hd

/-! ## Round-trip machinery: adding a file's definitions and removing
them restores every lookup -/

theorem addDefinition_index (s : CssIndexState) (d : CssClassDefinition) :
    (addDefinition s d).index =
      aSet s.index d.className ((aGet s.index d.className).getD [] ++ [d]) :=
  rfl

theorem addDefinition_fileIndex (s : CssIndexState)
    (d : CssClassDefinition) :
    (addDefinition s d).fileIndex =
      aSet s.fileIndex d.filePath
        (sAdd ((aGet s.fileIndex d.filePath).getD []) d.className) := rfl

theorem mem_sAdd_self (s : List String) (x : String) : x ∈ sAdd s x := by
  unfold sAdd
  split
  · next h => exact List.mem_of_elem_eq_true h
  · simp

theorem mem_sAdd_of_mem (s : List String) (x y : String) (h : y ∈ s) :
    y ∈ sAdd s x := by
  unfold sAdd
  split <;> simp [h]

theorem filter_ne_path_eq_self (p : String)
    (l : List CssClassDefinition) (h : ∀ d ∈ l, d.filePath ≠ p) :
    l.filter (fun d => d.filePath ≠ p) = l := by
  induction l with
  | nil => rfl
  | cons d rest ih =>
    have hd : d.filePath ≠ p := h d (by simp)
    have hr := ih (fun x hx => h x (by simp [hx]))
    rw [List.filter_cons, if_pos (by simp [hd]), hr]

/-- Invariants carried while a file's parsed definitions are folded into
the index: filtering the file's path out of any entry recovers the prior
entry, entries are never deleted, entries outside the file's recorded
class names are untouched, and keys stay distinct. -/
theorem addFold_inv (p : String) (s0 : CssIndexState) :
    ∀ (defs : List CssClassDefinition) (M : CssIndexState),
      (∀ d ∈ defs, d.filePath = p) →
      (∀ cn, ((aGet M.index cn).getD []).filter (fun d => d.filePath ≠ p) =
        (aGet s0.index cn).getD []) →
      (∀ cn, aGet M.index cn = none → aGet s0.index cn = none) →
      (∀ cn, cn ∉ (aGet M.fileIndex p).getD [] →
        aGet M.index cn = aGet s0.index cn) →
      ((M.index.map Prod.fst).Nodup) →
      (∀ cn, ((aGet (defs.foldl addDefinition M).index cn).getD []).filter
          (fun d => d.filePath ≠ p) = (aGet s0.index cn).getD []) ∧
      (∀ cn, aGet (defs.foldl addDefinition M).index cn = none →
        aGet s0.index cn = none) ∧
      (∀ cn, cn ∉ (aGet (defs.foldl addDefinition M).fileIndex p).getD [] →
        aGet (defs.foldl addDefinition M).index cn = aGet s0.index cn) ∧
      (((defs.foldl addDefinition M).index.map Prod.fst).Nodup) := by
  intro defs
  induction defs with
  | nil =>
    intro M _ ha hb hc hd
    exact ⟨ha, hb, hc, hd⟩
  | cons d rest ih =>
    intro M hdefs ha hb hc hd
    have hdp : d.filePath = p := hdefs d (by simp)
    rw [List.foldl_cons]
    refine ih (addDefinition M d) (fun x hx => hdefs x (by simp [hx]))
      ?_ ?_ ?_ ?_
    · intro cn
      by_cases hcn : cn = d.className
      · subst hcn
        rw [addDefinition_index, aGet_aSet_self]
        simp only [Option.getD_some, List.filter_append]
        rw [ha d.className]
        have hone : [d].filter (fun x => x.filePath ≠ p) = [] := by
          simp [hdp]
        rw [hone, List.append_nil]
      · rw [addDefinition_index, aGet_aSet_ne _ _ _ _ hcn]
        exact ha cn
    · intro cn hnone
      by_cases hcn : cn = d.className
      · subst hcn
        rw [addDefinition_index, aGet_aSet_self] at hnone
        cases hnone
      · rw [addDefinition_index, aGet_aSet_ne _ _ _ _ hcn] at hnone
        exact hb _ hnone
    · intro cn hmem
      rw [addDefinition_fileIndex, hdp, aGet_aSet_self] at hmem
      simp only [Option.getD_some] at hmem
      have hne : cn ≠ d.className := by
        intro hh
        apply hmem
        rw [hh]
        exact mem_sAdd_self _ _
      have hold : cn ∉ (aGet M.fileIndex p).getD [] := fun hh =>
        hmem (mem_sAdd_of_mem _ _ _ hh)
      rw [addDefinition_index, aGet_aSet_ne _ _ _ _ hne]
      exact hc cn hold
    · rw [addDefinition_index]
      exact nodupKeys_aSet _ _ _ hd

/-- The removal loop of `removeFile` restores, for every class name in
the processed list, exactly the prior definition list. -/
theorem removeFold_inv (p : String)
    (target : String → List CssClassDefinition)
    (htarget : ∀ cn d, d ∈ target cn → d.filePath ≠ p) :
    ∀ (names : List String) (M : CssIndexState),
      (∀ cn, ((aGet M.index cn).getD []).filter (fun d => d.filePath ≠ p) =
        target cn) →
      (∀ cn, aGet M.index cn = none → target cn = []) →
      ((M.index.map Prod.fst).Nodup) →
      ∀ cn, ((aGet (names.foldl (removeClassEntry p) M).index cn).getD []) =
        (if cn ∈ names then target cn else (aGet M.index cn).getD []) := by
  intro names
  induction names with
  | nil =>
    intro M _ _ _ cn
    simp
  | cons n rest ih =>
    intro M ha hb hkeys cn
    rw [List.foldl_cons]
    -- invariants for the state after one removal step
    have step_facts :
        (∀ c2, ((aGet (removeClassEntry p M n).index c2).getD []).filter
          (fun d => d.filePath ≠ p) = target c2) ∧
        (∀ c2, aGet (removeClassEntry p M n).index c2 = none →
          target c2 = []) ∧
        (((removeClassEntry p M n).index.map Prod.fst).Nodup) ∧
        ((aGet (removeClassEntry p M n).index n).getD [] = target n) ∧
        (∀ c2, c2 ≠ n → aGet (removeClassEntry p M n).index c2 =
          aGet M.index c2) := by
      unfold removeClassEntry
      rcases hm : aGet M.index n with _ | defs
      · refine ⟨ha, hb, hkeys, ?_, fun c2 _ => rfl⟩
        rw [hm]
        simpa using (hb n hm).symm
      · have hfil : defs.filter (fun d => d.filePath ≠ p) = target n := by
          have := ha n
          rwa [hm, Option.getD_some] at this
        dsimp only
        split
        · next hne =>
          refine ⟨?_, ?_, nodupKeys_aSet _ _ _ hkeys, ?_, ?_⟩
          · intro c2
            by_cases hc2 : c2 = n
            · subst hc2
              rw [aGet_aSet_self, Option.getD_some, hfil,
                filter_ne_path_eq_self p _ (fun d hd => htarget _ d hd)]
            · rw [aGet_aSet_ne _ _ _ _ hc2]
              exact ha c2
          · intro c2 hnone
            by_cases hc2 : c2 = n
            · subst hc2
              rw [aGet_aSet_self] at hnone
              cases hnone
            · rw [aGet_aSet_ne _ _ _ _ hc2] at hnone
              exact hb c2 hnone
          · rw [aGet_aSet_self, Option.getD_some, hfil]
          · intro c2 hc2
            rw [aGet_aSet_ne _ _ _ _ hc2]
        · next hne =>
          have hempty : target n = [] := by
            rw [← hfil]
            simpa using hne
          refine ⟨?_, ?_, nodupKeys_aDel _ _ hkeys, ?_, ?_⟩
          · intro c2
            by_cases hc2 : c2 = n
            · subst hc2
              rw [aGet_aDel_self _ _ hkeys]
              simpa using hempty.symm
            · rw [aGet_aDel_ne _ _ _ hc2]
              exact ha c2
          · intro c2 hnone
            by_cases hc2 : c2 = n
            · subst hc2
              exact hempty
            · rw [aGet_aDel_ne _ _ _ hc2] at hnone
              exact hb c2 hnone
          · rw [aGet_aDel_self _ _ hkeys]
            simpa using hempty.symm
          · intro c2 hc2
            rw [aGet_aDel_ne _ _ _ hc2]
      -- end of step_facts
    obtain ⟨sa, sb, skeys, sn, sother⟩ := step_facts
    have hrec := ih (removeClassEntry p M n) sa sb skeys cn
    rw [hrec]
    by_cases hcnrest : cn ∈ rest
    · simp [hcnrest]
    · by_cases hcnn : cn = n
      · subst hcnn
        simp [hcnrest, sn]
      · simp [hcnrest, hcnn, sother cn hcnn]

theorem foldlM_ok_eq {σ α : Type} (f : σ → α → σ) :
    ∀ (l : List α) (init : σ),
      l.foldlM (fun st a => (Except.ok (f st a) : Except String σ)) init =
        Except.ok (l.foldl f init) := by
  intro l
  induction l with
  | nil => intro init; rfl
  | cons a rest ih =>
    intro init
    simp only [List.foldlM_cons, List.foldl_cons]
    exact ih (f init a)

/-- `indexFile` with no discoverable source map never throws: it removes
the file's prior entries, folds the parsed definitions in, and merges
the directives. -/
theorem indexFile_none (cfg : CssClassesConfig) (s : CssIndexState)
    (p c : String) :
    indexFile cfg s p c none =
      Except.ok (indexDirectives
        ((parseCssClasses c p cfg).foldl addDefinition (removeFile s p))
        p c) := by
  unfold indexFile
  dsimp only
  rw [foldlM_ok_eq addDefinition]

theorem foldl_addMixin_fileIndex (l : List ScssMixin) (st : CssIndexState) :
    (l.foldl addMixinEntry st).fileIndex = st.fileIndex :=
  foldl_proj_eq (fun s => s.fileIndex) addMixinEntry (fun _ _ => rfl) l st

theorem foldl_addExtend_fileIndex (l : List ScssExtend)
    (st : CssIndexState) :
    (l.foldl addExtendEntry st).fileIndex = st.fileIndex :=
  foldl_proj_eq (fun s => s.fileIndex) addExtendEntry (fun _ _ => rfl) l st

theorem foldl_addInclude_fileIndex (l : List ScssInclude)
    (st : CssIndexState) :
    (l.foldl addIncludeEntry st).fileIndex = st.fileIndex :=
  foldl_proj_eq (fun s => s.fileIndex) addIncludeEntry (fun _ _ => rfl) l st

/-- `indexDirectives` never touches the file mirror map. -/
theorem indexDirectives_fileIndex (s : CssIndexState) (p c : String) :
    (indexDirectives s p c).fileIndex = s.fileIndex := by
  unfold indexDirectives
  dsimp only
  rw [foldl_addInclude_fileIndex, foldl_addExtend_fileIndex,
    foldl_addMixin_fileIndex]

theorem removeFileClasses_noop (s : CssIndexState) (p : String)
    (h : aGet s.fileIndex p = none) : removeFileClasses s p = s := by
  unfold removeFileClasses
  rw [h]

theorem removeDirectives_noop (s : CssIndexState) (p : String)
    (h : aGet s.fileDirectives p = none) : removeDirectives s p = s := by
  unfold removeDirectives
  rw [h]

/-- `removeFile` of a never-indexed path is a structural no-op. -/
theorem removeFile_noop (s : CssIndexState) (p : String)
    (h1 : aGet s.fileIndex p = none)
    (h2 : aGet s.fileDirectives p = none) : removeFile s p = s := by
  unfold removeFile
  rw [removeFileClasses_noop s p h1, removeDirectives_noop s p h2]

/-- The round trip: with no source map discoverable, after indexing a
file that was never indexed before (no mirror entry and no stored
definition under its path, the index a well-formed map), removing it
restores every lookup. -/
theorem indexFile_roundtrip_core (cfg : CssClassesConfig)
    (s : CssIndexState) (p c : String)
    (h0 : (s.index.map Prod.fst).Nodup)
    (h1 : aGet s.fileIndex p = none)
    (h2 : ∀ cn defs, aGet s.index cn = some defs →
      ∀ d ∈ defs, d.filePath ≠ p) :
    ∀ name,
      (indexFile cfg s p c none).map
        (fun s2 => lookup (removeFile s2 p) name) =
      Except.ok (lookup s name) := by
  intro name
  rw [indexFile_none]
  have hmap : (Except.ok (indexDirectives
        ((parseCssClasses c p cfg).foldl addDefinition (removeFile s p))
        p c) : Except String CssIndexState).map
        (fun s2 => lookup (removeFile s2 p) name) =
      Except.ok (lookup (removeFile (indexDirectives
        ((parseCssClasses c p cfg).foldl addDefinition (removeFile s p))
        p c) p) name) := rfl
  rw [hmap]
  suffices hlook : lookup (removeFile (indexDirectives
      ((parseCssClasses c p cfg).foldl addDefinition (removeFile s p))
      p c) p) name = lookup s name by rw [hlook]
  have hs'i : (removeFile s p).index = s.index := by
    unfold removeFile
    rw [removeFileClasses_noop s p h1, removeDirectives_index]
  have hs'f : (removeFile s p).fileIndex = s.fileIndex := by
    unfold removeFile
    rw [removeFileClasses_noop s p h1, removeDirectives_fileIndex]
  have ha : ∀ cn, ((aGet (removeFile s p).index cn).getD []).filter
      (fun d => d.filePath ≠ p) = (aGet s.index cn).getD [] := by
    intro cn
    rw [hs'i]
    rcases hcn : aGet s.index cn with _ | defs0
    · rfl
    · simp only [Option.getD_some]
      exact filter_ne_path_eq_self p defs0 (h2 cn defs0 hcn)
  have hb : ∀ cn, aGet (removeFile s p).index cn = none →
      aGet s.index cn = none := by
    intro cn hcn
    rwa [hs'i] at hcn
  have hc : ∀ cn, cn ∉ (aGet (removeFile s p).fileIndex p).getD [] →
      aGet (removeFile s p).index cn = aGet s.index cn := by
    intro cn _
    rw [hs'i]
  have hd : ((removeFile s p).index.map Prod.fst).Nodup := by
    rw [hs'i]; exact h0
  obtain ⟨Ta, Tb, Tc, Td⟩ := addFold_inv p s (parseCssClasses c p cfg)
    (removeFile s p) (parseCssClasses_filePath c p cfg) ha hb hc hd
  have hUidx := indexDirectives_index
    ((parseCssClasses c p cfg).foldl addDefinition (removeFile s p)) p c
  have hUfile := indexDirectives_fileIndex
    ((parseCssClasses c p cfg).foldl addDefinition (removeFile s p)) p c
  have htarget : ∀ cn d, d ∈ (aGet s.index cn).getD [] →
      d.filePath ≠ p := by
    intro cn d hdm
    rcases hcn : aGet s.index cn with _ | defs0
    · rw [hcn] at hdm
      cases hdm
    · rw [hcn] at hdm
      exact h2 cn defs0 hcn d hdm
  generalize hT : List.foldl addDefinition (removeFile s p)
    (parseCssClasses c p cfg) = T at Ta Tb Tc Td hUidx hUfile ⊢
  generalize hU : indexDirectives T p c = U at hUidx hUfile ⊢
  unfold removeFile
  have hrd : ∀ X : CssIndexState,
      lookup (removeDirectives X p) name = lookup X name := by
    intro X
    unfold lookup
    rw [removeDirectives_index]
  rw [hrd]
  unfold removeFileClasses
  rcases hnames : aGet U.fileIndex p with _ | names
  · dsimp only
    rw [hUfile] at hnames
    have hnotin : name ∉ (aGet T.fileIndex p).getD [] := by
      rw [hnames]
      simp
    unfold lookup
    rw [hUidx, Tc name hnotin]
  · dsimp only
    rw [hUfile] at hnames
    have ha' : ∀ cn, ((aGet U.index cn).getD []).filter
        (fun d => d.filePath ≠ p) = (aGet s.index cn).getD [] := by
      intro cn
      rw [hUidx]
      exact Ta cn
    have hb' : ∀ cn, aGet U.index cn = none →
        (aGet s.index cn).getD [] = [] := by
      intro cn hcn
      rw [hUidx] at hcn
      rw [Tb cn hcn]
      rfl
    have hd' : (U.index.map Prod.fst).Nodup := by
      rw [hUidx]
      exact Td
    have hrem := removeFold_inv p (fun cn => (aGet s.index cn).getD [])
      htarget names U ha' hb' hd' name
    show ((aGet (names.foldl (removeClassEntry p) U).index name).getD []) =
      lookup s name
    rw [hrem]
    by_cases hn : name ∈ names
    · rw [if_pos hn]
      rfl
    · rw [if_neg hn]
      have hnotin : name ∉ (aGet T.fileIndex p).getD [] := by
        rw [hnames]
        simpa using hn
      rw [hUidx, Tc name hnotin]
      rfl

/-! ## Per-rule dedup facts -/

theorem dedupFilterAux_spec (pc : List String) :
    ∀ (cs seen : List String) (c : String),
      c ∈ dedupFilterAux pc seen cs → c ∉ pc ∧ c ∉ seen := by
  intro cs
  induction cs with
  | nil => intro seen c h; cases h
  | cons c0 rest ih =>
    intro seen c h
    unfold dedupFilterAux at h
    split at h
    · exact ih seen c h
    · split at h
      · exact ih seen c h
      · rename_i hp hsn
        rcases List.mem_cons.mp h with rfl | h2
        · exact ⟨by simpa using hp, by simpa using hsn⟩
        · obtain ⟨h3, h4⟩ := ih (c0 :: seen) c h2
          exact ⟨h3, fun hmem => h4 (List.mem_cons_of_mem _ hmem)⟩

theorem dedupFilterAux_nodup (pc : List String) :
    ∀ (cs seen : List String), (dedupFilterAux pc seen cs).Nodup := by
  intro cs
  induction cs with
  | nil => intro seen; simp [dedupFilterAux]
  | cons c0 rest ih =>
    intro seen
    unfold dedupFilterAux
    split
    · exact ih seen
    · split
      · exact ih seen
      · refine List.nodup_cons.mpr ⟨?_, ih (c0 :: seen)⟩
        intro hmem
        exact (dedupFilterAux_spec pc rest (c0 :: seen) c0 hmem).2 (by simp)

/-! ## Comment, string and line-comment characters leave the parser
state untouched -/

theorem charStep_inComment (cfg : CssClassesConfig) (fp : String)
    (li : Nat) (ch : Char) (next? : Option Char) (col : Nat)
    (prev : Option Char) (ilc : Bool) (s : ParserState)
    (hc : s.inComment = true) (hs : s.inString = none) (hch : ch ≠ '*') :
    charStep cfg fp li ch next? col prev ilc s = (s, ilc, 1) := by
  unfold charStep
  rw [hs]
  dsimp only
  rw [hc]
  simp [hch]

theorem charStep_inString (cfg : CssClassesConfig) (fp : String)
    (li : Nat) (ch : Char) (next? : Option Char) (col : Nat)
    (prev : Option Char) (ilc : Bool) (s : ParserState) (q : Char)
    (hq : s.inString = some q) (hch : ch ≠ q) :
    charStep cfg fp li ch next? col prev ilc s = (s, ilc, 1) := by
  unfold charStep
  rw [hq]
  simp [hch]

theorem charStep_lineComment (cfg : CssClassesConfig) (fp : String)
    (li : Nat) (ch : Char) (next? : Option Char) (col : Nat)
    (prev : Option Char) (s : ParserState)
    (hc : s.inComment = false) (hs : s.inString = none) :
    charStep cfg fp li ch next? col prev true s = (s, true, 1) := by
  unfold charStep
  rw [hs]
  dsimp only
  rw [hc]
  simp

theorem goChars_inComment_skip (cfg : CssClassesConfig) (fp : String)
    (li : Nat) :
    ∀ (fuel : Nat) (chars : List Char) (col : Nat) (prev : Option Char)
      (ilc : Bool) (s : ParserState),
      s.inComment = true → s.inString = none →
      (∀ ch ∈ chars, ch ≠ '*') →
      goChars cfg fp li fuel chars col prev ilc s = s := by
  intro fuel
  induction fuel with
  | zero => intro chars col prev ilc s _ _ _; cases chars <;> rfl
  | succ fuel ih =>
    intro chars col prev ilc s hc hs hstar
    cases chars with
    | nil => rfl
    | cons ch rest =>
      simp only [goChars]
      rw [charStep_inComment cfg fp li ch rest.head? col prev ilc s hc hs
        (hstar ch (by simp))]
      dsimp only
      rw [if_neg (by decide)]
      exact ih rest (col + 1) (some ch) ilc s hc hs
        (fun c hcm => hstar c (by simp [hcm]))

theorem goChars_inString_skip (cfg : CssClassesConfig) (fp : String)
    (li : Nat) :
    ∀ (fuel : Nat) (chars : List Char) (col : Nat) (prev : Option Char)
      (ilc : Bool) (s : ParserState) (q : Char),
      s.inString = some q → q ∉ chars →
      goChars cfg fp li fuel chars col prev ilc s = s := by
  intro fuel
  induction fuel with
  | zero => intro chars col prev ilc s q _ _; cases chars <;> rfl
  | succ fuel ih =>
    intro chars col prev ilc s q hq hnq
    cases chars with
    | nil => rfl
    | cons ch rest =>
      have hch : ch ≠ q := by
        intro hh
        exact hnq (by simp [hh])
      simp only [goChars]
      rw [charStep_inString cfg fp li ch rest.head? col prev ilc s q hq hch]
      dsimp only
      rw [if_neg (by decide)]
      exact ih rest (col + 1) (some ch) ilc s q hq
        (fun hmem => hnq (by simp [hmem]))

theorem goChars_lineComment_skip (cfg : CssClassesConfig) (fp : String)
    (li : Nat) :
    ∀ (fuel : Nat) (chars : List Char) (col : Nat) (prev : Option Char)
      (s : ParserState),
      s.inComment = false → s.inString = none →
      goChars cfg fp li fuel chars col prev true s = s := by
  intro fuel
  induction fuel with
  | zero => intro chars col prev s _ _; cases chars <;> rfl
  | succ fuel ih =>
    intro chars col prev s hc hs
    cases chars with
    | nil => rfl
    | cons ch rest =>
      simp only [goChars]
      rw [charStep_lineComment cfg fp li ch rest.head? col prev s hc hs]
      dsimp only
      rw [if_neg (by decide)]
      exact ih rest (col + 1) (some ch) s hc hs

/-! ## BEM helper facts -/

theorem idxOf_isPrefix (needle l : List Char)
    (h : needle.isPrefixOf l = true) : idxOf needle l = some 0 := by
  cases l <;> simp [idxOf, h]

/-! ## Claim theorems -/

/-- C1: the claim says `indexFile` is idempotent — indexing the same
content twice yields the same lookup results as once, with no duplicate
definition accumulating, including when a source map is discoverable.
The code violates this: a source-map-redirected definition is recorded in
the file mirror under the original file's path, so the second call's
`removeFile(indexed path)` cannot find it and an identical definition
(same class name, file, line, column) is inserted again.  This theorem
evaluates the code at the failing input: two passes store the redirected
definition twice, one pass stores it once. -/
theorem indexFile_twice_sourcemap_duplicates :
    ((indexFile defaultConfig CssIndexState.empty "/dist/out.css"
        ".a \x7b \x7d"
        (some (⟨3, ["in.scss"], none, "AAAA"⟩, "/dist/out.css.map"))).bind
      (fun s1 => indexFile defaultConfig s1 "/dist/out.css" ".a \x7b \x7d"
        (some (⟨3, ["in.scss"], none, "AAAA"⟩, "/dist/out.css.map")))).map
      (fun s2 => (lookup s2 "a").map
        (fun d => (d.className, d.filePath, d.line, d.column))) =
      Except.ok [("a", "/dist/in.scss", 0, 0), ("a", "/dist/in.scss", 0, 0)] ∧
    (indexFile defaultConfig CssIndexState.empty "/dist/out.css"
        ".a \x7b \x7d"
        (some (⟨3, ["in.scss"], none, "AAAA"⟩, "/dist/out.css.map"))).map
      (fun s2 => (lookup s2 "a").map
        (fun d => (d.className, d.filePath, d.line, d.column))) =
      Except.ok [("a", "/dist/in.scss", 0, 0)] := by
  constructor <;> decide

/-- C2 counterexample: with a discoverable source map that redirects the
file's definitions to another path, `removeFile` after `indexFile` does
not restore the prior (empty) lookup — the redirected definition
survives. -/
theorem indexFile_removeFile_sourcemap_roundtrip_fails :
    (indexFile defaultConfig CssIndexState.empty "/dist/out.css"
        ".a \x7b \x7d"
        (some (⟨3, ["in.scss"], none, "AAAA"⟩, "/dist/out.css.map"))).map
      (fun s2 => lookup (removeFile s2 "/dist/out.css") "a") ≠
    Except.ok (lookup CssIndexState.empty "a") := by
  decide

/-- C2 (amended): when no source map is discoverable for the file and the
prior state has never indexed the path (well-formed key-distinct index,
no mirror entry, no stored definition under the path), `removeFile` after
`indexFile` restores every class lookup exactly; and `removeFile` of a
never-indexed path is a structural no-op. -/
theorem removeFile_roundtrip_and_noop :
    (∀ (cfg : CssClassesConfig) (s : CssIndexState) (p c : String),
      (s.index.map Prod.fst).Nodup →
      aGet s.fileIndex p = none →
      (∀ cn defs, aGet s.index cn = some defs →
        ∀ d ∈ defs, d.filePath ≠ p) →
      ∀ name, (indexFile cfg s p c none).map
          (fun s2 => lookup (removeFile s2 p) name) =
        Except.ok (lookup s name)) ∧
    (∀ (s : CssIndexState) (p : String),
      aGet s.fileIndex p = none → aGet s.fileDirectives p = none →
      removeFile s p = s) :=
  ⟨indexFile_roundtrip_core, removeFile_noop⟩

theorem removeFile_roundtrip_and_noop_witness :
    ((indexFile defaultConfig CssIndexState.empty "/w.css" ".w \x7b \x7d"
        none).map (fun s2 => lookup (removeFile s2 "/w.css") "w") =
      Except.ok (lookup CssIndexState.empty "w")) ∧
    removeFile CssIndexState.empty "/nope.css" = CssIndexState.empty :=
  ⟨removeFile_roundtrip_and_noop.1 defaultConfig CssIndexState.empty
      "/w.css" ".w \x7b \x7d" (by simp [CssIndexState.empty]) rfl
      (by intro cn defs h; simp [CssIndexState.empty, aGet] at h) "w",
   removeFile_roundtrip_and_noop.2 CssIndexState.empty "/nope.css" rfl rfl⟩

/-- C3: the nested BEM chain yields exactly one definition per class, a
class nested under its own block is not re-emitted, and in general the
per-rule emission drops every class already in the parent scope and
collapses duplicates within one rule. -/
theorem parseCssClasses_no_parent_reemission :
    ((parseCssClasses
        ".card \x7b &__header \x7b &--highlighted \x7b\x7d \x7d \x7d"
        "/t.scss" defaultConfig).map (·.className) =
      ["card", "card__header", "card__header--highlighted"]) ∧
    (((parseCssClasses ".a \x7b .b \x7b &.c \x7b\x7d \x7d \x7d"
        "/t.scss" defaultConfig).map (·.className)).count "a" = 1) ∧
    (∀ (parentClasses : List String)
        (resolvedSelectors : List (List Char)),
      (∀ cls ∈ ruleClassNames parentClasses resolvedSelectors,
        cls ∉ parentClasses) ∧
      (ruleClassNames parentClasses resolvedSelectors).Nodup) := by
  refine ⟨by decide, by decide, ?_⟩
  intro pc rs
  constructor
  · intro cls h
    exact (dedupFilterAux_spec pc _ [] cls h).1
  · exact dedupFilterAux_nodup pc _ []

theorem parseCssClasses_no_parent_reemission_witness :
    ("b" ∈ ruleClassNames ["a"] [".a .b".data] →
      "b" ∉ (["a"] : List String)) ∧
    (ruleClassNames ["a"] [".a .b".data]).Nodup :=
  ⟨fun h => (parseCssClasses_no_parent_reemission.2.2 ["a"]
      [".a .b".data]).1 "b" h,
   (parseCssClasses_no_parent_reemission.2.2 ["a"] [".a .b".data]).2⟩

/-- C4: the claim says an at-rule block pushes a scope frame inheriting
the parent selectors unchanged, so `.card` containing a media query
containing `&__x` yields a `card__x` definition.  The code treats the
non-empty buffered text `at-media (condition)` as a selector — the
empty-selector inheriting branch is never reached for a conditioned
at-rule — and the ampersand splices the whole `.card at-media (...)`
string, so no `card__x` definition is produced: the parse emits only
`card`. -/
theorem parseCssClasses_atRule_loses_nested_amp :
    (parseCssClasses
      ".card \x7b @media (min-width: 600px) \x7b &__x \x7b \x7d \x7d \x7d"
      "/t.scss" defaultConfig).map (·.className) = ["card"] := by
  decide

/-- C5: the claim says `resolveOriginalPosition` (and its VLQ decoding)
is total — any failure, including malformed mappings characters, yields
null rather than a thrown exception aborting `indexFile`.  The code's
`decodeVlq` throws `Invalid VLQ character` on any non-base64 character
and no caller catches it: the error propagates out of
`resolveOriginalPosition` and aborts `indexFile`. -/
theorem resolveOriginalPosition_invalid_vlq_throws :
    resolveOriginalPosition ⟨3, ["a.css"], none, "!"⟩ 0 0 "/p/out.css.map" =
      Except.error "Invalid VLQ character: !" ∧
    indexFile defaultConfig CssIndexState.empty "/p/out.css" ".a \x7b \x7d"
      (some (⟨3, ["a.css"], none, "!"⟩, "/p/out.css.map")) =
      Except.error "Invalid VLQ character: !" := by
  constructor <;> decide

/-- C6: `resolveImportPath` rejects http, https and protocol-relative
specifiers immediately; otherwise it probes the candidates in exactly
the claimed order — exact path only with an extension, the two extension
probes without one, then the underscore partial forms, then the
directory index forms — returning the first the reader can read; with
`main.scss` and `_variables.scss` side by side, `variables` resolves to
`_variables.scss`. -/
theorem resolveImportPath_order_spec :
    (∀ (read : String → Option String) (specifier fromFile : String),
      (strStartsWith specifier "http://" = true ∨
        strStartsWith specifier "https://" = true ∨
        strStartsWith specifier "//" = true) →
      resolveImportPath read specifier fromFile = none) ∧
    (∀ specifier fromDir,
      buildResolutionCandidates specifier fromDir =
        specCandidates specifier fromDir) ∧
    (∀ (read : String → Option String) (specifier fromFile : String),
      ¬ (strStartsWith specifier "http://" = true ∨
          strStartsWith specifier "https://" = true ∨
          strStartsWith specifier "//" = true) →
      resolveImportPath read specifier fromFile =
        findFirstReadable read
          (buildResolutionCandidates specifier (pathDirname fromFile))) ∧
    resolveImportPath
      (fun q =>
        if q = "main.scss" ∨ q = "_variables.scss" then some "" else none)
      "variables" "main.scss" = some "_variables.scss" := by
  refine ⟨?_, ?_, ?_, by decide⟩
  · intro read spec fromF h
    unfold resolveImportPath
    rw [if_pos h]
  · intro spec fromDir
    unfold buildResolutionCandidates specCandidates
    by_cases h : pathExtname spec ≠ ""
    · simp [h]
    · have h2 : pathExtname spec = "" := not_not.mp h
      simp [h, h2, String.append_assoc]
  · intro read spec fromF h
    unfold resolveImportPath
    rw [if_neg h]

theorem resolveImportPath_order_spec_witness :
    resolveImportPath (fun _ => some "") "https://cdn.example.com/x.css"
      "/p/main.scss" = none :=
  resolveImportPath_order_spec.1 (fun _ => some "")
    "https://cdn.example.com/x.css" "/p/main.scss"
    (Or.inr (Or.inl (by decide)))

/-- C7: `bemTargetAtOffset` is boundary-exact — each separator belongs to
the part that follows it: on the 20-character class the offsets up to 3
give the block, 4 through 11 the block plus element, 12 through 20 the
full class name; and a class with no BEM structure returns the full
class name at every offset. -/
theorem bemTargetAtOffset_boundary_exact :
    (∀ off : Nat, off ≤ 20 →
      bemTargetAtOffset "card__header--active" off "__" "--" =
        (if off < 4 then "card"
          else if off < 12 then "card__header"
          else "card__header--active")) ∧
    (∀ (name : String) (off : Nat) (e m : String),
      (parseBem name e m = none ∨
        ∃ b, parseBem name e m = some ⟨b, none, none⟩) →
      bemTargetAtOffset name off e m = name) := by
  constructor
  · decide
  · intro name off e m h
    unfold bemTargetAtOffset
    rcases h with h | ⟨b, h⟩
    · rw [h]
    · rw [h]
      dsimp only
      rw [if_pos ⟨rfl, rfl⟩]

theorem bemTargetAtOffset_boundary_exact_witness :
    bemTargetAtOffset "card__header--active" 7 "__" "--" =
      (if 7 < 4 then "card"
        else if 7 < 12 then "card__header"
        else "card__header--active") ∧
    bemTargetAtOffset "plain" 3 "__" "--" = "plain" :=
  ⟨bemTargetAtOffset_boundary_exact.1 7 (by decide),
   bemTargetAtOffset_boundary_exact.2 "plain" 3 "__" "--"
     (Or.inr ⟨"plain", by decide⟩)⟩

/-- C8: class tokens inside block comments, line comments or string
literals are never emitted — the commented-out rule contributes nothing
and only `real` survives; content left unterminated at end of input
contributes no definitions; and in general the character machine
consumes comment, string and line-comment characters without touching
the state (so no buffer content and no definitions can originate
there). -/
theorem parseCssClasses_comment_string_safety :
    ((parseCssClasses "/* .fake \x7b \x7d */ .real \x7b \x7d" "/t.css"
        defaultConfig).map (·.className) = ["real"]) ∧
    (parseCssClasses "/* .fake \x7b \x7d" "/t.css" defaultConfig = []) ∧
    (parseCssClasses "\" .fake \x7b \x7d" "/t.css" defaultConfig = []) ∧
    ((parseCssClasses "// .fake \x7b \x7d\n.real2 \x7b \x7d" "/t.css"
        defaultConfig).map (·.className) = ["real2"]) ∧
    (∀ (cfg : CssClassesConfig) (fp : String) (li fuel : Nat)
        (chars : List Char) (col : Nat) (prev : Option Char) (ilc : Bool)
        (s : ParserState),
      s.inComment = true → s.inString = none →
      (∀ ch ∈ chars, ch ≠ '*') →
      goChars cfg fp li fuel chars col prev ilc s = s) ∧
    (∀ (cfg : CssClassesConfig) (fp : String) (li fuel : Nat)
        (chars : List Char) (col : Nat) (prev : Option Char) (ilc : Bool)
        (s : ParserState) (q : Char),
      s.inString = some q → q ∉ chars →
      goChars cfg fp li fuel chars col prev ilc s = s) ∧
    (∀ (cfg : CssClassesConfig) (fp : String) (li fuel : Nat)
        (chars : List Char) (col : Nat) (prev : Option Char)
        (s : ParserState),
      s.inComment = false → s.inString = none →
      goChars cfg fp li fuel chars col prev true s = s) := by
  refine ⟨by decide, by decide, by decide, by decide, ?_, ?_, ?_⟩
  · intro cfg fp li fuel chars col prev ilc s hc hs hstar
    exact goChars_inComment_skip cfg fp li fuel chars col prev ilc s hc hs
      hstar
  · intro cfg fp li fuel chars col prev ilc s q hq hnq
    exact goChars_inString_skip cfg fp li fuel chars col prev ilc s q hq hnq
  · intro cfg fp li fuel chars col prev s hc hs
    exact goChars_lineComment_skip cfg fp li fuel chars col prev s hc hs

theorem parseCssClasses_comment_string_safety_witness :
    goChars defaultConfig "/w.css" 0 5 ".x \x7b".data 0 none false
      ⟨[], [], [], 0, 0, true, none⟩ = ⟨[], [], [], 0, 0, true, none⟩ :=
  parseCssClasses_comment_string_safety.2.2.2.2.1 defaultConfig "/w.css" 0 5
    (".x \x7b".data) 0 none false ⟨[], [], [], 0, 0, true, none⟩ rfl rfl
    (by decide)

/-- C9: `parseBem` is total by construction (no partial operation on any
path); it returns null when the class name is empty or begins with
either separator, and a non-empty name containing neither separator
yields the plain block with no element and no modifier. -/
theorem parseBem_total_contract :
    (∀ (c e m : String),
      c = "" ∨ strStartsWith c e = true ∨ strStartsWith c m = true →
      parseBem c e m = none) ∧
    (∀ (c e m : String), c ≠ "" → strIndexOf c e = none →
      strIndexOf c m = none →
      parseBem c e m = some ⟨c, none, none⟩) := by
  constructor
  · intro c e m h
    unfold parseBem
    dsimp only
    have hcond : c.data = [] ∨ e.data.isPrefixOf c.data = true ∨
        m.data.isPrefixOf c.data = true := by
      rcases h with h | h | h
      · subst h
        exact Or.inl rfl
      · exact Or.inr (Or.inl h)
      · exact Or.inr (Or.inr h)
    rw [if_pos hcond]
  · intro c e m hne he hm
    have hd : ¬ c.data = [] := by
      intro hh
      apply hne
      cases c
      simp only at hh
      subst hh
      rfl
    have hpe : ¬ e.data.isPrefixOf c.data = true := by
      intro hp
      have h0 := idxOf_isPrefix e.data c.data hp
      rw [show strIndexOf c e = idxOf e.data c.data from rfl, h0] at he
      cases he
    have hpm : ¬ m.data.isPrefixOf c.data = true := by
      intro hp
      have h0 := idxOf_isPrefix m.data c.data hp
      rw [show strIndexOf c m = idxOf m.data c.data from rfl, h0] at hm
      cases hm
    unfold parseBem
    dsimp only
    rw [if_neg (fun h => h.elim hd (fun h2 => h2.elim hpe hpm))]
    rw [if_pos ⟨he, hm⟩]

theorem parseBem_total_contract_witness :
    parseBem "" "__" "--" = none ∧
    parseBem "alpha" "__" "--" = some ⟨"alpha", none, none⟩ :=
  ⟨parseBem_total_contract.1 "" "__" "--" (Or.inl rfl),
   parseBem_total_contract.2 "alpha" "__" "--" (by decide) (by decide)
     (by decide)⟩

/-- C10: `extractImports` keeps no comment or string state — an import
statement that begins the trimmed text of a line inside a block comment
is still returned as an import record, in document order ahead of the
real one that follows the comment. -/
theorem extractImports_matches_commented_line :
    extractImports "/*\n@import \"hidden\";\n*/\n@use \"real\";" =
      [⟨"hidden", 1, ImportType.atImport⟩, ⟨"real", 3, ImportType.atUse⟩] := by
  decide

end CssClasses
